import Mathlib

/-!
# Verification of the `webauthn-varsig` core of ucan-upload-wall

This file gives a shallow embedding, in Lean 4, of the varsig
encoder/decoder, the structural verifier, and the DID derivation of the
repository, and proves (or refutes) the testable properties its
specification states about them.

Conventions of the embedding:

* A JavaScript `Uint8Array` is a `List Nat` whose elements are below 256
  (the hypotheses of theorems state this bound where it matters).
* JavaScript's 32-bit bitwise operators (`|`, `<<`, `>>>`) are modelled
  by `jsOr`/`jsShl` over `Int`, with the exact ToInt32/ToUint32
  conversions of the language: this is what makes the varint decoder's
  accumulator wrap for values of 2^31 and above, exactly as the
  JavaScript code does.
* Reading a `Uint8Array` at a negative index yields `undefined`, which
  both `undefined & 0x7f` and `undefined & 0x80` convert to `0`; the
  decoder loop therefore reads `0` for out-of-range indices.
* `Uint8Array.prototype.slice` with its relative-index clamping is
  `uslice`.
* Thrown `Error`s become `Except` errors: one constructor of
  `DecodeError` per `throw` site of the decoder, a `String` for the
  verifier's try/catch block.
* Recursive functions are written with an explicit fuel argument (with
  the wrapper supplying a fuel that is provably sufficient), so that
  they are structurally recursive and reduce inside `decide`.
* Platform primitives that the source calls but does not define
  (`JSON.parse`, `atob`/`btoa`, the multiformats `base58btc` codec) are
  modelled by their public standards, or taken as parameters
  (`JSON.parse`), as documented at each definition.
-/

set_option maxRecDepth 10000

deriving instance DecidableEq for Except

namespace UploadWall

/-! ## JavaScript 32-bit integer semantics -/

/-- ECMAScript ToUint32 of an integer. -/
def toUint32 (n : Int) : Nat := (n % 4294967296).toNat

/-- ECMAScript ToInt32 of an integer. -/
def toInt32 (n : Int) : Int :=
  if toUint32 n < 2147483648 then (toUint32 n : Int)
  else (toUint32 n : Int) - 4294967296

/-- JavaScript `a | b` (32-bit signed bitwise or). -/
def jsOr (a b : Int) : Int := toInt32 ((Nat.lor (toUint32 a) (toUint32 b) : Nat) : Int)

/-- JavaScript `a << s` (32-bit signed shift; shift count taken mod 32). -/
def jsShl (a : Int) (s : Nat) : Int := toInt32 ((toUint32 a * 2 ^ (s % 32) : Nat) : Int)

/-! ## Varint codec (`web/src/lib/webauthn-varsig/utils.ts`) -/

/-- Loop body of `varintEncode` (`while (value >= 0x80) ...`), with fuel.
`(value & 0x7f) | 0x80` is `value % 128 + 128`, and `value >>>= 7` is
`value % 2^32 / 128` (ToUint32 then shift), for every natural `value`. -/
def varintEncodeGo (fuel value : Nat) : List Nat :=
  match fuel with
  | 0 => [value % 128]
  | f + 1 =>
    if 128 ≤ value then (value % 128 + 128) :: varintEncodeGo f (value % 2 ^ 32 / 128)
    else [value % 128]

/-- `varintEncode` of `utils.ts`: unsigned LEB128 encoding. The fuel
`value` is enough because the running value strictly decreases. -/
def varintEncode (value : Nat) : List Nat := varintEncodeGo value value

/-- One error constructor per `throw` site of `utils.ts`/`decoder.ts`. -/
inductive DecodeError where
  /-- `Varint incomplete` -/
  | varintIncomplete
  /-- `Varint too large (exceeds JavaScript number precision)` -/
  | varintTooLarge
  /-- `Unsupported multicodec: ...` -/
  | unsupportedMulticodec (multicodec : Int)
  /-- `Invalid authenticatorData length` -/
  | invalidAuthDataLength
  /-- `Invalid clientDataJSON length` -/
  | invalidClientDataJSONLength
  /-- `Invalid Ed25519 signature length: expected 64 bytes, got ...` -/
  | invalidEd25519SignatureLength (got : Nat)
  /-- `Invalid P-256 signature length: expected 64-74 bytes, got ...` -/
  | invalidP256SignatureLength (got : Nat)
deriving DecidableEq

/-- The `while (offset + bytesRead < bytes.length)` loop of
`varintDecode`, with fuel.  `value |= (byte & 0x7f) << shift` uses the
32-bit signed semantics `jsOr`/`jsShl`; `byte & 0x80` tests bit 7; an
out-of-range (negative-index) read yields `undefined`, which both `&`
operations turn into `0`. -/
def varintDecodeLoop (fuel : Nat) (bytes : List Nat) (offset : Int)
    (value : Int) (shift : Nat) (bytesRead : Nat) : Except DecodeError (Int × Nat) :=
  match fuel with
  | 0 => .error .varintIncomplete
  | f + 1 =>
    if offset + (bytesRead : Int) < (bytes.length : Int) then
      let idx : Int := offset + (bytesRead : Int)
      let b : Nat := if 0 ≤ idx then bytes.getD idx.toNat 0 else 0
      let value2 := jsOr value (jsShl ((b % 128 : Nat) : Int) shift)
      if b.testBit 7 = false then
        .ok (value2, bytesRead + 1)
      else if 53 < shift + 7 then
        .error .varintTooLarge
      else
        varintDecodeLoop f bytes offset value2 (shift + 7) (bytesRead + 1)
    else
      .error .varintIncomplete

/-- `varintDecode` of `utils.ts`.  The fuel bound
`(bytes.length - offset).toNat + 1` dominates the number of loop
entries, so the fuel-0 fallback is never reached. -/
def varintDecode (bytes : List Nat) (offset : Int) : Except DecodeError (Int × Nat) :=
  varintDecodeLoop (((bytes.length : Int) - offset).toNat + 1) bytes offset 0 0 0

/-- `concat` of `utils.ts` (concatenation of byte arrays). -/
def concat (arrays : List (List Nat)) : List Nat :=
  arrays.foldl (fun result arr => result ++ arr) []

/-- `bytesEqual` of `utils.ts`: length check plus element-wise equality,
which is exactly list equality. -/
def bytesEqual (a b : List Nat) : Bool := a == b

/-! ## `Uint8Array.prototype.slice` -/

/-- Relative-index resolution of `Uint8Array.prototype.slice`:
a negative index counts from the end (clamped at 0), a non-negative
index is clamped at the length. -/
def jsSliceIndex (len : Nat) (i : Int) : Nat :=
  if i < 0 then (max ((len : Int) + i) 0).toNat else min i.toNat len

/-- `a.slice(s, e)` on a `Uint8Array`. -/
def uslice (a : List Nat) (s e : Int) : List Nat :=
  (a.take (jsSliceIndex a.length e)).drop (jsSliceIndex a.length s)

/-! ## Multicodec constants (`web/src/lib/webauthn-varsig/multicodec.ts`) -/

/-- Custom multicodec for a WebAuthn-wrapped Ed25519 signature. -/
def WEBAUTHN_ED25519 : Nat := 0x2ed1

/-- Custom multicodec for a WebAuthn-wrapped P-256 signature. -/
def WEBAUTHN_P256 : Nat := 0x2256

/-- Standard multicodec of an Ed25519 public key. -/
def ED25519_PUB : Nat := 0xed

/-- Standard multicodec of a P-256 public key. -/
def P256_PUB : Nat := 0x1200

/-- The closed set of signature algorithms (`'Ed25519' | 'P-256'`). -/
inductive SignatureAlgorithm where
  | Ed25519
  | P256
deriving DecidableEq

/-- `ALGORITHM_TO_MULTICODEC` of `multicodec.ts`. -/
def ALGORITHM_TO_MULTICODEC : SignatureAlgorithm → Nat
  | .Ed25519 => WEBAUTHN_ED25519
  | .P256 => WEBAUTHN_P256

/-- `getAlgorithm` of `multicodec.ts` (`null` becomes `none`). -/
def getAlgorithm (multicodec : Int) : Option SignatureAlgorithm :=
  if multicodec = (WEBAUTHN_ED25519 : Int) then some .Ed25519
  else if multicodec = (WEBAUTHN_P256 : Int) then some .P256
  else none

/-! ## Envelope encoder (`encoder.ts`) and decoder (`decoder.ts`) -/

/-- `WebAuthnAssertion` of `types.ts`. -/
structure WebAuthnAssertion where
  authenticatorData : List Nat
  clientDataJSON : List Nat
  signature : List Nat
deriving DecidableEq

/-- `DecodedVarsig` of `types.ts`. -/
structure DecodedVarsig where
  multicodec : Int
  algorithm : SignatureAlgorithm
  authenticatorData : List Nat
  clientDataJSON : List Nat
  signature : List Nat
deriving DecidableEq

/-- `encodeWebAuthnVarsig` of `encoder.ts`:
`[multicodec][authData_len][authData][clientData_len][clientData][signature]`. -/
def encodeWebAuthnVarsig (assertion : WebAuthnAssertion)
    (algorithm : SignatureAlgorithm) : List Nat :=
  concat [varintEncode (ALGORITHM_TO_MULTICODEC algorithm),
          varintEncode assertion.authenticatorData.length,
          assertion.authenticatorData,
          varintEncode assertion.clientDataJSON.length,
          assertion.clientDataJSON,
          assertion.signature]

/-- `decodeWebAuthnVarsig` of `decoder.ts`.  After the multicodec
validation `getAlgorithm` is always `some`; the source's non-null
`algorithm` is the corresponding two-way choice, and the final
`else if (algorithm === 'P-256')` is exhaustive. -/
def decodeWebAuthnVarsig (varsig : List Nat) : Except DecodeError DecodedVarsig :=
  match varintDecode varsig 0 with
  | .error e => .error e
  | .ok (multicodec, multicodecLen) =>
    if multicodec ≠ (WEBAUTHN_ED25519 : Int) ∧ multicodec ≠ (WEBAUTHN_P256 : Int) then
      .error (.unsupportedMulticodec multicodec)
    else
      let algorithm : SignatureAlgorithm :=
        if multicodec = (WEBAUTHN_ED25519 : Int) then .Ed25519 else .P256
      match varintDecode varsig (0 + (multicodecLen : Int)) with
      | .error e => .error e
      | .ok (authDataLen, authDataLenLen) =>
        let offset1 : Int := 0 + (multicodecLen : Int) + (authDataLenLen : Int)
        if (varsig.length : Int) < offset1 + authDataLen then
          .error .invalidAuthDataLength
        else
          let authenticatorData := uslice varsig offset1 (offset1 + authDataLen)
          let offset2 := offset1 + authDataLen
          match varintDecode varsig offset2 with
          | .error e => .error e
          | .ok (clientDataLen, clientDataLenLen) =>
            let offset3 := offset2 + (clientDataLenLen : Int)
            if (varsig.length : Int) < offset3 + clientDataLen then
              .error .invalidClientDataJSONLength
            else
              let clientDataJSON := uslice varsig offset3 (offset3 + clientDataLen)
              let offset4 := offset3 + clientDataLen
              let signature := uslice varsig offset4 (varsig.length : Int)
              match algorithm with
              | .Ed25519 =>
                if signature.length ≠ 64 then
                  .error (.invalidEd25519SignatureLength signature.length)
                else
                  .ok ⟨multicodec, algorithm, authenticatorData, clientDataJSON, signature⟩
              | .P256 =>
                if signature.length < 64 ∨ 74 < signature.length then
                  .error (.invalidP256SignatureLength signature.length)
                else
                  .ok ⟨multicodec, algorithm, authenticatorData, clientDataJSON, signature⟩

/-- The decoder's signature-length rule, as a boolean (used to state
theorems; Ed25519 signatures are exactly 64 bytes, P-256 signatures
64 to 74 bytes). -/
def sigLenOk : SignatureAlgorithm → Nat → Bool
  | .Ed25519, n => n == 64
  | .P256, n => 64 ≤ n && n ≤ 74

/-! ## base64url (`utils.ts`), with the platform `btoa`/`atob` modelled
from the WHATWG specification -/

/-- The standard base64 alphabet used by `btoa`/`atob`. -/
def base64Chars : List Char :=
  "ABCDEFGHIJKLMNOPQRSTUVWXYZabcdefghijklmnopqrstuvwxyz0123456789+/".toList

/-- Index of a character in the base64 alphabet. -/
def base64CharValue (c : Char) : Option Nat :=
  base64Chars.findIdx? (fun x => x == c)

/-- Modelled from the WHATWG `btoa` on a binary string holding the given
byte values: three input bytes become four sextet characters; a final
group of one or two bytes is padded with `=`. -/
def btoaBytes : List Nat → List Char
  | [] => []
  | [a] => [base64Chars.getD (a / 4) 'A', base64Chars.getD (a % 4 * 16) 'A', '=', '=']
  | [a, b] => [base64Chars.getD (a / 4) 'A', base64Chars.getD (a % 4 * 16 + b / 16) 'A',
      base64Chars.getD (b % 16 * 4) 'A', '=']
  | a :: b :: c2 :: rest =>
      base64Chars.getD (a / 4) 'A' :: base64Chars.getD (a % 4 * 16 + b / 16) 'A'
        :: base64Chars.getD (b % 16 * 4 + c2 / 64) 'A' :: base64Chars.getD (c2 % 64) 'A'
        :: btoaBytes rest

/-- `bytesToBase64url` of `utils.ts`: `btoa`, then `+` to `-`, `/` to
`_`, and `=` removed. -/
def bytesToBase64url (bytes : List Nat) : String :=
  String.mk (((btoaBytes bytes).map
    (fun c => if c = '+' then '-' else if c = '/' then '_' else c)).filter
      (fun c => !(c == '=')))

/-- ASCII whitespace, as removed by forgiving-base64. -/
def isB64Whitespace (c : Char) : Bool :=
  c == '\t' || c == '\n' || c == '\x0c' || c == '\r' || c == ' '

/-- Bit reassembly of forgiving-base64: four sextets yield three bytes;
a final group of two or three sextets yields one or two bytes, leftover
bits being discarded. -/
def sextetsToBytes : List Nat → List Nat
  | [] => []
  | [_] => []
  | [s1, s2] => [s1 * 4 + s2 / 16]
  | [s1, s2, s3] => [s1 * 4 + s2 / 16, s2 % 16 * 16 + s3 / 4]
  | s1 :: s2 :: s3 :: s4 :: rest =>
      (s1 * 4 + s2 / 16) :: (s2 % 16 * 16 + s3 / 4) :: (s3 % 4 * 64 + s4)
        :: sextetsToBytes rest

/-- Table lookup of every character, failing on the first character
outside the alphabet. -/
def sextetValues : List Char → Option (List Nat)
  | [] => some []
  | c :: t =>
    match base64CharValue c, sextetValues t with
    | some v, some vs => some (v :: vs)
    | _, _ => none

/-- Modelled from the WHATWG forgiving-base64 decode (the `atob`
platform primitive called by `base64urlToBytes`): strip ASCII
whitespace, strip up to two trailing `=` when the length is a multiple
of four, reject a length of 1 mod 4 or any character outside the
alphabet, then reassemble sextets into bytes.  A thrown
InvalidCharacterError is an `Except.error`. -/
def atobChars (s : List Char) : Except String (List Nat) :=
  let data := s.filter (fun c => !(isB64Whitespace c))
  let data := if data.length % 4 == 0 then
      if data.getLast? == some '=' then
        let d2 := data.dropLast
        if d2.getLast? == some '=' then d2.dropLast else d2
      else data
    else data
  if data.length % 4 == 1 then .error "InvalidCharacterError"
  else match sextetValues data with
    | some vs => .ok (sextetsToBytes vs)
    | none => .error "InvalidCharacterError"

/-- `base64urlToBytes` of `utils.ts`: `-` to `+`, `_` to `/`, re-pad
with `=` to a multiple of four, then `atob`. -/
def base64urlToBytes (s : String) : Except String (List Nat) :=
  let base64 := s.toList.map (fun c => if c = '-' then '+' else if c = '_' then '/' else c)
  let padded := base64 ++ List.replicate ((4 - base64.length % 4) % 4) '='
  atobChars padded

/-- The sextet stream of the base64 encoding of a byte list: the inverse
view of `sextetsToBytes`, used to state round-trip lemmas (three bytes
become four sextets; a trailing group of one or two bytes becomes two or
three sextets). -/
def bytesToSextets : List Nat → List Nat
  | [] => []
  | [a] => [a / 4, a % 4 * 16]
  | [a, b] => [a / 4, a % 4 * 16 + b / 16, b % 16 * 4]
  | a :: b :: c2 :: rest =>
      a / 4 :: (a % 4 * 16 + b / 16) :: (b % 16 * 4 + c2 / 64) :: c2 % 64
        :: bytesToSextets rest

/-- The base64url character a sextet value is rendered as by
`bytesToBase64url` (alphabet lookup followed by the `+` to `-` and `/` to
`_` replacements). -/
def urlOfSextet (v : Nat) : Char :=
  let c := base64Chars.getD v 'A'
  if c = '+' then '-' else if c = '/' then '_' else c

/-! ## Structural verifier (`verifier.ts`) -/

/-- `ClientDataJSON` of `types.ts`. -/
structure ClientDataJSON where
  type : String
  challenge : String
  origin : String
  crossOrigin : Option Bool
deriving DecidableEq

/-- `parseClientDataJSON` of `decoder.ts`.  `TextDecoder().decode` plus
`JSON.parse` plus field selection is a platform primitive taken as the
parameter `jsonParse`; the catch block re-wraps its error message. -/
def parseClientDataJSON (jsonParse : List Nat → Except String ClientDataJSON)
    (bytes : List Nat) : Except String ClientDataJSON :=
  match jsonParse bytes with
  | .ok parsed => .ok parsed
  | .error e => .error ("Failed to parse clientDataJSON: " ++ e)

/-- `VerificationOptions` of `verifier.ts`; an omitted
`requireUserVerification` is `none`. -/
structure VerificationOptions where
  expectedOrigin : String
  expectedChallenge : List Nat
  requireUserVerification : Option Bool
deriving DecidableEq

/-- The `flags` record of a successful verification. -/
structure VerificationFlags where
  userPresent : Bool
  userVerified : Bool
  backupEligible : Bool
  backupState : Bool
deriving DecidableEq

/-- `VerificationResult` of `verifier.ts` (optional fields are
`Option`). -/
structure VerificationResult where
  valid : Bool
  error : Option String
  clientData : Option ClientDataJSON
  flags : Option VerificationFlags
deriving DecidableEq

/-- The body of `verifyWebAuthnAssertion`'s `try` block, the source's
early returns written as nested alternatives; a thrown error (from
`parseClientDataJSON` or from `atob` inside `base64urlToBytes`) is an
`Except.error`. `options.requireUserVerification !== false` is
`≠ some false`; `(flags & 0x01) !== 0` is `Nat.testBit flags 0`, and
likewise bits 2, 3, 4 for `0x04`, `0x08`, `0x10`. -/
def verifyWebAuthnAssertionTry (jsonParse : List Nat → Except String ClientDataJSON)
    (decoded : DecodedVarsig) (options : VerificationOptions) :
    Except String VerificationResult :=
  match parseClientDataJSON jsonParse decoded.clientDataJSON with
  | .error e => .error e
  | .ok clientData =>
    if clientData.type ≠ "webauthn.get" then
      .ok ⟨false, some ("Invalid ceremony type: " ++ clientData.type
        ++ ", expected \x27webauthn.get\x27"), none, none⟩
    else if clientData.origin ≠ options.expectedOrigin then
      .ok ⟨false, some ("Origin mismatch: expected " ++ options.expectedOrigin
        ++ ", got " ++ clientData.origin), none, none⟩
    else
      match base64urlToBytes clientData.challenge with
      | .error e => .error e
      | .ok challengeBytes =>
        if bytesEqual challengeBytes options.expectedChallenge = false then
          .ok ⟨false, some "Challenge mismatch", none, none⟩
        else if decoded.authenticatorData.length < 37 then
          .ok ⟨false, some ("Invalid authenticatorData length: "
            ++ toString decoded.authenticatorData.length ++ ", expected >= 37"),
            none, none⟩
        else
          let flags := decoded.authenticatorData.getD 32 0
          let userPresent := flags.testBit 0
          let userVerified := flags.testBit 2
          let backupEligible := flags.testBit 3
          let backupState := flags.testBit 4
          if userPresent = false then
            .ok ⟨false, some "User presence (UP) flag not set", none, none⟩
          else if options.requireUserVerification ≠ some false ∧ userVerified = false then
            .ok ⟨false, some "User verification (UV) flag not set", none, none⟩
          else
            .ok ⟨true, none, some clientData,
              some ⟨userPresent, userVerified, backupEligible, backupState⟩⟩

/-- `verifyWebAuthnAssertion` of `verifier.ts`: the try/catch wrapper
that turns any thrown error into a tagged failure result, so the
function itself never throws. -/
def verifyWebAuthnAssertion (jsonParse : List Nat → Except String ClientDataJSON)
    (decoded : DecodedVarsig) (options : VerificationOptions) : VerificationResult :=
  match verifyWebAuthnAssertionTry jsonParse decoded options with
  | .ok r => r
  | .error e => ⟨false, some ("Verification failed: " ++ e), none, none⟩

/-! ## base58btc and did:key (`src/unnamed/part_005`, `src/unnamed/part_007`) -/

/-- The bitcoin base58 alphabet, as used by `multiformats/bases/base58`. -/
def base58Alphabet : List Char :=
  "123456789ABCDEFGHJKLMNPQRSTUVWXYZabcdefghijkmnopqrstuvwxyz".toList

/-- Index of a character in the base58 alphabet. -/
def base58CharValue (c : Char) : Option Nat :=
  base58Alphabet.findIdx? (fun x => x == c)

/-- Table lookup of every character, failing on the first character
outside the alphabet. -/
def base58Values : List Char → Option (List Nat)
  | [] => some []
  | c :: t =>
    match base58CharValue c, base58Values t with
    | some v, some vs => some (v :: vs)
    | _, _ => none

/-- The big-endian value of a digit string in base `b`. -/
def ofDigitsBE (b : Nat) (l : List Nat) : Nat :=
  l.foldl (fun acc d => acc * b + d) 0

/-- The base-`b` digits of a number, least significant first; the first
argument is fuel dominating the number of divisions. -/
def natDigitsRev (b : Nat) : Nat → Nat → List Nat
  | 0, _ => []
  | _ + 1, 0 => []
  | fuel + 1, n + 1 => (n + 1) % b :: natDigitsRev b fuel ((n + 1) / b)

/-- The base-`b` digits of a number, most significant first, with no
leading zero digit (`0` has no digits). -/
def natToBase (b n : Nat) : List Nat :=
  (natDigitsRev b n n).reverse

/-- Modelled from the multibase base58btc codec of
`multiformats/bases/base58`: a `z` prefix, then each leading zero byte as
`1`, then the remaining bytes as a big-endian base58 numeral. -/
def base58btcEncode (bytes : List Nat) : List Char :=
  'z' :: (List.replicate ((bytes.takeWhile (fun x => x == 0)).length) '1' ++
    (natToBase 58 (ofDigitsBE 256 (bytes.dropWhile (fun x => x == 0)))).map
      (fun d => base58Alphabet.getD d '1'))

/-- Modelled from the multibase base58btc decoder: requires the `z`
prefix, turns each leading `1` into a zero byte and the rest into a
big-endian base58 numeral; a character outside the alphabet throws. -/
def base58btcDecode (s : List Char) : Option (List Nat) :=
  match s with
  | 'z' :: rest =>
    match base58Values (rest.dropWhile (fun c => c == '1')) with
    | none => none
    | some ds =>
      some (List.replicate ((rest.takeWhile (fun c => c == '1')).length) 0 ++
        natToBase 256 (ofDigitsBE 58 ds))
  | _ => none

/-- `createEd25519Did` of `src/unnamed/part_007`:
`did:key:` followed by the base58btc multibase of `[0xed, 0x01] ++ pk`. -/
def createEd25519Did (publicKey : List Nat) : String :=
  String.mk ("did:key:".toList ++ base58btcEncode (0xed :: 0x01 :: publicKey))

/-- `createP256Did` of `src/unnamed/part_007`:
`did:key:` followed by the base58btc multibase of `[0x80, 0x24] ++ pk`
(`[0x80, 0x24]` being the varint encoding of the P-256 multicodec
`0x1200`). -/
def createP256Did (publicKey : List Nat) : String :=
  String.mk ("did:key:".toList ++ base58btcEncode (0x80 :: 0x24 :: publicKey))

/-- `extractPublicKeyFromDid` of `src/unnamed/part_005`: require the
`did:key:z` prefix (`String.startsWith` is list-prefix on the
characters), strip `did:key:` (`did.slice(8)`), decode the multibase,
and drop the two multicodec bytes (`multikey.slice(2)`); a thrown error
is an `Except.error`. -/
def extractPublicKeyFromDid (did : String) : Except String (List Nat) :=
  if ("did:key:z".toList.isPrefixOf did.toList) = false then
    .error "Invalid DID format"
  else
    match base58btcDecode (did.toList.drop 8) with
    | none => .error "Unable to decode multibase string"
    | some multikey => .ok (multikey.drop 2)

/-! ## Helper lemmas -/

theorem toUint32_natCast (n : Nat) : toUint32 (n : Int) = n % 2 ^ 32 := by
  unfold toUint32
  omega

theorem toInt32_natCast_lt (n : Nat) (h : n < 2 ^ 31) : toInt32 (n : Int) = (n : Int) := by
  unfold toInt32
  rw [toUint32_natCast]
  rw [Nat.mod_eq_of_lt (by omega)]
  rw [if_pos (by omega)]

theorem lor_two_pow_mul (s a c : Nat) (ha : a < 2 ^ s) :
    Nat.lor a (2 ^ s * c) = a + 2 ^ s * c := by
  apply Nat.eq_of_testBit_eq
  intro j
  rw [show Nat.lor a (2 ^ s * c) = a ||| 2 ^ s * c from rfl, Nat.testBit_lor]
  have hshl : 2 ^ s * c = c <<< s := by rw [Nat.shiftLeft_eq]; ring
  rcases lt_or_le j s with hj | hj
  · have h2 : (2 ^ s * c).testBit j = false := by
      rw [hshl, Nat.testBit_shiftLeft]
      simp [Nat.not_le.mpr hj]
    rw [h2, Bool.or_false]
    rw [Nat.testBit_to_div_mod, Nat.testBit_to_div_mod]
    have hdiv : (a + 2 ^ s * c) / 2 ^ j = a / 2 ^ j + 2 ^ (s - j) * c := by
      have he : 2 ^ s * c = 2 ^ j * (2 ^ (s - j) * c) := by
        rw [← mul_assoc, ← pow_add]
        congr 2
        omega
      rw [he, Nat.add_mul_div_left _ _ (Nat.pos_pow_of_pos j (by norm_num))]
    rw [hdiv]
    have hev : 2 ^ (s - j) * c = 2 * (2 ^ (s - j - 1) * c) := by
      rw [← mul_assoc, ← pow_succ']
      congr 2
      omega
    rw [hev, Nat.add_mul_mod_self_left]
  · have h1 : a.testBit j = false :=
      Nat.testBit_lt_two_pow (lt_of_lt_of_le ha (Nat.pow_le_pow_right (by norm_num) hj))
    rw [h1, Bool.false_or]
    conv_lhs => rw [hshl, Nat.testBit_shiftLeft]
    have hge : decide (j ≥ s) = true := by simp [hj]
    rw [hge, Bool.true_and]
    rw [Nat.testBit_to_div_mod, Nat.testBit_to_div_mod]
    have hd : (a + 2 ^ s * c) / 2 ^ j = c / 2 ^ (j - s) := by
      have he : (2 : Nat) ^ j = 2 ^ s * 2 ^ (j - s) := by
        rw [← pow_add]
        congr 1
        omega
      rw [he, ← Nat.div_div_eq_div_mul,
        Nat.add_mul_div_left _ _ (Nat.pos_pow_of_pos s (by norm_num)),
        Nat.div_eq_of_lt ha, Nat.zero_add]
    rw [hd]

theorem toUint32_toInt32 (n : Int) : toUint32 (toInt32 n) = toUint32 n := by
  unfold toInt32 toUint32
  split <;> omega

theorem varintEncodeGo_congr (v : Nat) : ∀ (f g : Nat), v ≤ f → v ≤ g →
    varintEncodeGo f v = varintEncodeGo g v := by
  induction v using Nat.strong_induction_on with
  | _ v ih =>
    intro f g hf hg
    rcases le_or_lt 128 v with h | h
    · obtain ⟨f2, rfl⟩ : ∃ f2, f = f2 + 1 := ⟨f - 1, by omega⟩
      obtain ⟨g2, rfl⟩ : ∃ g2, g = g2 + 1 := ⟨g - 1, by omega⟩
      have hlt : v % 2 ^ 32 / 128 < v := by
        calc v % 2 ^ 32 / 128 ≤ v / 128 := Nat.div_le_div_right (Nat.mod_le _ _)
        _ < v := Nat.div_lt_self (by omega) (by omega)
      simp only [varintEncodeGo, if_pos h]
      rw [ih (v % 2 ^ 32 / 128) hlt f2 g2 (by omega) (by omega)]
    · cases f <;> cases g <;> simp [varintEncodeGo, Nat.not_le.mpr h]

theorem varintEncode_unfold (v : Nat) :
    varintEncode v =
      if 128 ≤ v then (v % 128 + 128) :: varintEncode (v % 2 ^ 32 / 128)
      else [v % 128] := by
  rcases le_or_lt 128 v with h | h
  · rw [if_pos h]
    unfold varintEncode
    obtain ⟨v2, rfl⟩ : ∃ v2, v = v2 + 1 := ⟨v - 1, by omega⟩
    simp only [varintEncodeGo, if_pos h]
    have hlt : (v2 + 1) % 2 ^ 32 / 128 < v2 + 1 := by
      calc (v2 + 1) % 2 ^ 32 / 128 ≤ (v2 + 1) / 128 := Nat.div_le_div_right (Nat.mod_le _ _)
      _ < v2 + 1 := Nat.div_lt_self (by omega) (by omega)
    rw [varintEncodeGo_congr _ v2 _ (by omega) le_rfl]
  · rw [if_neg (by omega)]
    unfold varintEncode
    cases v with
    | zero => rfl
    | succ v2 => simp [varintEncodeGo, Nat.not_le.mpr h]

theorem varintEncode_ne_nil (v : Nat) : varintEncode v ≠ [] := by
  rw [varintEncode_unfold]
  split <;> simp

theorem varintEncode_length_le (k : Nat) : ∀ m, m < 2 ^ 32 → m < 2 ^ (7 * k) →
    (varintEncode m).length ≤ k + 1 := by
  induction k with
  | zero =>
    intro m _ hm
    rw [varintEncode_unfold, if_neg (by omega)]
    simp
  | succ k ih =>
    intro m h32 hm
    rw [varintEncode_unfold]
    split
    · have h1 : m % 2 ^ 32 = m := Nat.mod_eq_of_lt h32
      rw [h1]
      have h2 : m / 128 < 2 ^ (7 * k) := by
        rw [Nat.div_lt_iff_lt_mul (by norm_num)]
        calc m < 2 ^ (7 * (k + 1)) := hm
        _ = 2 ^ (7 * k) * 128 := by rw [show 7 * (k + 1) = 7 * k + 7 by ring, pow_add]; norm_num
      have := ih (m / 128) (by omega) h2
      simpa using this
    · simp

theorem varintEncode_cont (m : Nat) : ∀ i, i + 1 < (varintEncode m).length →
    ((varintEncode m).getD i 0).testBit 7 = true := by
  induction m using Nat.strong_induction_on with
  | _ m ih =>
    intro i hi
    rw [varintEncode_unfold] at hi ⊢
    by_cases h : 128 ≤ m
    · rw [if_pos h] at hi ⊢
      cases i with
      | zero =>
        simp only [List.getD_cons_zero]
        rw [Nat.testBit_to_div_mod]
        have : (m % 128 + 128) / 2 ^ 7 % 2 = 1 := by omega
        simp [this]
      | succ j =>
        simp only [List.getD_cons_succ]
        have hlt : m % 2 ^ 32 / 128 < m := by
          calc m % 2 ^ 32 / 128 ≤ m / 128 := Nat.div_le_div_right (Nat.mod_le _ _)
          _ < m := Nat.div_lt_self (by omega) (by omega)
        exact ih _ hlt j (by simpa using hi)
    · rw [if_neg h] at hi
      simp at hi

theorem getD_of_drop_cons : ∀ (l : List Nat) (k b : Nat) (tl : List Nat),
    l.drop k = b :: tl → l.getD k 0 = b := by
  intro l
  induction l with
  | nil => intro k b tl h; rw [List.drop_nil] at h; cases h
  | cons x xs ih =>
    intro k b tl h
    cases k with
    | zero =>
      rw [List.drop_zero] at h
      cases h
      rfl
    | succ j =>
      rw [List.drop_succ_cons] at h
      rw [List.getD_cons_succ]
      exact ih j b tl h

theorem drop_succ_of_drop_cons (l : List Nat) (k b : Nat) (tl : List Nat)
    (h : l.drop k = b :: tl) : l.drop (k + 1) = tl := by
  rw [← List.tail_drop, h]
  rfl

theorem lt_length_of_drop_cons (l : List Nat) (k b : Nat) (tl : List Nat)
    (h : l.drop k = b :: tl) : k < l.length := by
  have := congrArg List.length h
  simp at this
  omega

theorem varintDecodeLoop_step_read (f : Nat) (bytes : List Nat) (o n : Nat)
    (value : Int) (shift : Nat) (h : o + n < bytes.length) :
    varintDecodeLoop (f + 1) bytes (o : Int) value shift n =
      (if (bytes.getD (o + n) 0).testBit 7 = false then
        .ok (jsOr value (jsShl ((bytes.getD (o + n) 0 % 128 : Nat) : Int) shift), n + 1)
       else if 53 < shift + 7 then
        .error .varintTooLarge
       else
        varintDecodeLoop f bytes (o : Int)
          (jsOr value (jsShl ((bytes.getD (o + n) 0 % 128 : Nat) : Int) shift))
          (shift + 7) (n + 1)) := by
  have hcond : (o : Int) + (n : Int) < (bytes.length : Int) := by exact_mod_cast h
  have hnn : (0 : Int) ≤ (o : Int) + (n : Int) := by positivity
  have htn : ((o : Int) + (n : Int)).toNat = o + n := by omega
  simp only [varintDecodeLoop, if_pos hcond, if_pos hnn, htn]

theorem varintDecodeLoop_step_end (f : Nat) (bytes : List Nat) (o n : Nat)
    (value : Int) (shift : Nat) (h : bytes.length ≤ o + n) :
    varintDecodeLoop (f + 1) bytes (o : Int) value shift n = .error .varintIncomplete := by
  have hcond : ¬ ((o : Int) + (n : Int) < (bytes.length : Int)) := by
    omega
  simp only [varintDecodeLoop, if_neg hcond]

theorem jsOr_jsShl_eval (w d shift : Nat) (hw : w < 2 ^ shift) (hs : shift < 32)
    (hd : d * 2 ^ shift < 2 ^ 32) :
    jsOr (w : Int) (jsShl (d : Int) shift) = toInt32 ((w + d * 2 ^ shift : Nat) : Int) := by
  have hd2 : d < 2 ^ 32 := by
    have h1 : (1 : Nat) ≤ 2 ^ shift := Nat.one_le_two_pow
    calc d = d * 1 := by ring
    _ ≤ d * 2 ^ shift := Nat.mul_le_mul_left d h1
    _ < 2 ^ 32 := hd
  have hw32 : w < 2 ^ 32 := by
    have : (2 : Nat) ^ shift ≤ 2 ^ 32 := Nat.pow_le_pow_right (by norm_num) (by omega)
    omega
  unfold jsShl
  rw [toUint32_natCast, Nat.mod_eq_of_lt hd2, Nat.mod_eq_of_lt hs]
  unfold jsOr
  rw [toUint32_toInt32, toUint32_natCast, toUint32_natCast,
    Nat.mod_eq_of_lt hd, Nat.mod_eq_of_lt hw32]
  rw [show d * 2 ^ shift = 2 ^ shift * d by ring, lor_two_pow_mul shift w d hw,
    show w + 2 ^ shift * d = w + d * 2 ^ shift by ring]

theorem varintDecodeLoop_encode (m : Nat) : ∀ (fuel : Nat) (bytes : List Nat)
    (o n w shift : Nat) (rest : List Nat),
    bytes.drop (o + n) = varintEncode m ++ rest →
    m * 2 ^ shift < 2 ^ 32 →
    shift ≤ 31 →
    w < 2 ^ shift →
    (varintEncode m).length ≤ fuel →
    varintDecodeLoop fuel bytes (o : Int) ((w : Nat) : Int) shift n
      = .ok (toInt32 ((w + m * 2 ^ shift : Nat) : Int), n + (varintEncode m).length) := by
  induction m using Nat.strong_induction_on with
  | _ m ih =>
    intro fuel bytes o n w shift rest hdrop hm h31 hw hfuel
    have h1s : (1 : Nat) ≤ 2 ^ shift := Nat.one_le_two_pow
    have hm32 : m < 2 ^ 32 := by
      have h2 : m * 1 ≤ m * 2 ^ shift := Nat.mul_le_mul_left m h1s
      omega
    have hpos : 0 < (varintEncode m).length := List.length_pos.mpr (varintEncode_ne_nil m)
    obtain ⟨f2, rfl⟩ : ∃ f2, fuel = f2 + 1 := ⟨fuel - 1, by omega⟩
    rcases le_or_lt 128 m with h | h
    · -- continuation byte
      have hENC : varintEncode m = (m % 128 + 128) :: varintEncode (m / 128) := by
        rw [varintEncode_unfold, if_pos h, Nat.mod_eq_of_lt hm32]
      rw [hENC] at hdrop hfuel ⊢
      have hcons : bytes.drop (o + n) = (m % 128 + 128) :: (varintEncode (m / 128) ++ rest) := by
        simpa using hdrop
      have hlt : o + n < bytes.length := lt_length_of_drop_cons _ _ _ _ hcons
      have hget : bytes.getD (o + n) 0 = m % 128 + 128 := getD_of_drop_cons _ _ _ _ hcons
      rw [varintDecodeLoop_step_read f2 bytes o n _ shift hlt, hget]
      have hbit : (m % 128 + 128).testBit 7 = true := by
        rw [Nat.testBit_to_div_mod]
        have hx : (m % 128 + 128) / 2 ^ 7 % 2 = 1 := by omega
        simp [hx]
      rw [hbit]
      simp only [Bool.true_eq_false, if_false]
      rw [if_neg (by omega : ¬ (53 < shift + 7))]
      rw [show (m % 128 + 128) % 128 = m % 128 by omega]
      have hdlt : (m % 128) * 2 ^ shift < 2 ^ 32 := by
        have h2 : (m % 128) * 2 ^ shift ≤ m * 2 ^ shift :=
          mul_le_mul_right' (Nat.mod_le _ _) _
        omega
      rw [jsOr_jsShl_eval w (m % 128) shift hw (by omega) hdlt]
      have hpow7 : (2 : Nat) ^ (shift + 7) = 128 * 2 ^ shift := by
        rw [pow_add]
        ring
      have hsh7 : shift + 7 ≤ 31 := by
        have h2 : (128 : Nat) * 2 ^ shift ≤ m * 2 ^ shift :=
          mul_le_mul_right' (by omega) _
        have h5 : (2 : Nat) ^ (shift + 7) < 2 ^ 32 := by
          rw [hpow7]
          omega
        have h6 := (Nat.pow_lt_pow_iff_right (by norm_num : 1 < 2)).mp h5
        omega
      have hwlt : w + (m % 128) * 2 ^ shift < 2 ^ (shift + 7) := by
        have h2 : (m % 128) * 2 ^ shift ≤ 127 * 2 ^ shift :=
          mul_le_mul_right' (by omega) _
        omega
      have hsmall : w + (m % 128) * 2 ^ shift < 2 ^ 31 := by
        have h2 : (2 : Nat) ^ (shift + 7) ≤ 2 ^ 31 :=
          Nat.pow_le_pow_right (by norm_num) hsh7
        omega
      rw [toInt32_natCast_lt _ hsmall]
      have hdrop2 : bytes.drop (o + (n + 1)) = varintEncode (m / 128) ++ rest := by
        have h2 := drop_succ_of_drop_cons bytes (o + n) _ _ hcons
        rw [show o + (n + 1) = o + n + 1 by omega]
        exact h2
      have hmrec : m / 128 < m := Nat.div_lt_self (by omega) (by omega)
      have hmshift : (m / 128) * 2 ^ (shift + 7) ≤ m * 2 ^ shift := by
        rw [hpow7, ← mul_assoc]
        exact mul_le_mul_right' (by omega) _
      have hflen : (varintEncode (m / 128)).length ≤ f2 := by
        simp only [List.length_cons] at hfuel
        omega
      rw [ih (m / 128) hmrec f2 bytes o (n + 1) (w + (m % 128) * 2 ^ shift) (shift + 7)
        rest hdrop2 (by omega) hsh7 hwlt hflen]
      have harith : w + (m % 128) * 2 ^ shift + m / 128 * 2 ^ (shift + 7)
          = w + m * 2 ^ shift := by
        rw [hpow7]
        have h3 : m % 128 * 2 ^ shift + m / 128 * (128 * 2 ^ shift)
            = (m % 128 + 128 * (m / 128)) * 2 ^ shift := by ring
        rw [add_assoc, h3, Nat.mod_add_div]
      rw [harith]
      simp only [List.length_cons]
      rw [show n + 1 + (varintEncode (m / 128)).length
          = n + ((varintEncode (m / 128)).length + 1) by omega]
    · -- final byte
      have hENC : varintEncode m = [m] := by
        rw [varintEncode_unfold, if_neg (by omega), Nat.mod_eq_of_lt h]
      rw [hENC] at hdrop ⊢
      have hcons : bytes.drop (o + n) = m :: rest := by simpa using hdrop
      have hlt : o + n < bytes.length := lt_length_of_drop_cons _ _ _ _ hcons
      have hget : bytes.getD (o + n) 0 = m := getD_of_drop_cons _ _ _ _ hcons
      rw [varintDecodeLoop_step_read f2 bytes o n _ shift hlt, hget]
      have hbit : m.testBit 7 = false := Nat.testBit_lt_two_pow (by omega)
      rw [hbit]
      rw [if_pos rfl]
      rw [Nat.mod_eq_of_lt h]
      rw [jsOr_jsShl_eval w m shift hw (by omega) hm]
      simp

theorem varintDecode_encode (bytes : List Nat) (o m : Nat) (rest : List Nat)
    (hdrop : bytes.drop o = varintEncode m ++ rest) (hm : m < 2 ^ 32) :
    varintDecode bytes (o : Int) = .ok (toInt32 (m : Int), (varintEncode m).length) := by
  have hlen0 := congrArg List.length hdrop
  simp only [List.length_drop, List.length_append] at hlen0
  have hpos : 0 < (varintEncode m).length := List.length_pos.mpr (varintEncode_ne_nil m)
  have hole : o + (varintEncode m).length ≤ bytes.length := by omega
  unfold varintDecode
  have hfuel : (varintEncode m).length ≤ (((bytes.length : Int) - (o : Int)).toNat + 1) := by
    omega
  have h0 : ((0 : Nat) : Int) = (0 : Int) := rfl
  rw [← h0]
  rw [varintDecodeLoop_encode m _ bytes o 0 0 0 rest (by simpa using hdrop)
    (by simpa using hm) (by omega) (by norm_num) hfuel]
  norm_num

theorem varintDecode_encode_lt (bytes : List Nat) (o m : Nat) (rest : List Nat)
    (hdrop : bytes.drop o = varintEncode m ++ rest) (hm : m < 2 ^ 31) :
    varintDecode bytes (o : Int) = .ok ((m : Int), (varintEncode m).length) := by
  rw [varintDecode_encode bytes o m rest hdrop (by omega), toInt32_natCast_lt m hm]

theorem varintDecodeLoop_allCont (r : Nat) : ∀ (fuel : Nat) (bytes : List Nat)
    (o n : Nat) (value : Int) (shift : Nat),
    bytes.length = o + n + r →
    (∀ i, o + n ≤ i → i < bytes.length → (bytes.getD i 0).testBit 7 = true) →
    shift + 7 * r ≤ 53 →
    r + 1 ≤ fuel →
    varintDecodeLoop fuel bytes (o : Int) value shift n = .error .varintIncomplete := by
  induction r with
  | zero =>
    intro fuel bytes o n value shift hlen hcont hshift hfuel
    obtain ⟨f2, rfl⟩ : ∃ f2, fuel = f2 + 1 := ⟨fuel - 1, by omega⟩
    exact varintDecodeLoop_step_end f2 bytes o n value shift (by omega)
  | succ r ih =>
    intro fuel bytes o n value shift hlen hcont hshift hfuel
    obtain ⟨f2, rfl⟩ : ∃ f2, fuel = f2 + 1 := ⟨fuel - 1, by omega⟩
    rw [varintDecodeLoop_step_read f2 bytes o n value shift (by omega)]
    rw [hcont (o + n) le_rfl (by omega)]
    simp only [Bool.true_eq_false, if_false]
    rw [if_neg (by omega : ¬ (53 < shift + 7))]
    exact ih f2 bytes o (n + 1) _ (shift + 7) (by omega)
      (fun i hi hlt => hcont i (by omega) hlt) (by omega) (by omega)

theorem getD_drop (l : List Nat) : ∀ (o t : Nat), (l.drop o).getD t 0 = l.getD (o + t) 0 := by
  induction l with
  | nil => intro o t; simp
  | cons x xs ih =>
    intro o t
    cases o with
    | zero => simp
    | succ j =>
      rw [List.drop_succ_cons, ih j t, show j + 1 + t = (j + t) + 1 by omega,
        List.getD_cons_succ]

theorem getD_take (l : List Nat) : ∀ (j t : Nat), t < j → (l.take j).getD t 0 = l.getD t 0 := by
  induction l with
  | nil => intro j t _; simp
  | cons x xs ih =>
    intro j t ht
    cases j with
    | zero => omega
    | succ j2 =>
      rw [List.take_succ_cons]
      cases t with
      | zero => rfl
      | succ t2 =>
        rw [List.getD_cons_succ, List.getD_cons_succ]
        exact ih j2 t2 (by omega)

theorem varintDecode_truncatedVarint (bytes : List Nat) (o m j : Nat)
    (hm : m < 2 ^ 32) (hj : j < (varintEncode m).length)
    (hdrop : bytes.drop o = (varintEncode m).take j) :
    varintDecode bytes (o : Int) = .error .varintIncomplete := by
  have hlen6 : (varintEncode m).length ≤ 6 := by
    have h35 : m < 2 ^ (7 * 5) := by
      have : (2 : Nat) ^ 32 ≤ 2 ^ 35 := Nat.pow_le_pow_right (by norm_num) (by norm_num)
      norm_num
      omega
    have := varintEncode_length_le 5 m hm h35
    omega
  have hlen0 := congrArg List.length hdrop
  simp only [List.length_drop, List.length_take] at hlen0
  have hjlen : min j (varintEncode m).length = j := by omega
  rw [hjlen] at hlen0
  rcases le_or_lt bytes.length o with hcase | hcase
  · unfold varintDecode
    exact varintDecodeLoop_step_end _ bytes o 0 0 0 (by omega)
  · have hco : ∀ i, o + 0 ≤ i → i < bytes.length → (bytes.getD i 0).testBit 7 = true := by
      intro i hi hlt
      have h1 : bytes.getD i 0 = (varintEncode m).getD (i - o) 0 := by
        have h2 : bytes.getD (o + (i - o)) 0 = (bytes.drop o).getD (i - o) 0 :=
          (getD_drop bytes o (i - o)).symm
        rw [show o + (i - o) = i by omega] at h2
        rw [h2, hdrop, getD_take _ _ _ (by omega)]
      rw [h1]
      exact varintEncode_cont m (i - o) (by omega)
    unfold varintDecode
    exact varintDecodeLoop_allCont j _ bytes o 0 0 0 (by omega) hco (by omega) (by omega)

theorem varintDecode_neg (bytes : List Nat) (offset : Int) (hneg : offset < 0) :
    varintDecode bytes offset = .ok (0, 1) := by
  have hc : offset + ((0 : Nat) : Int) < (bytes.length : Int) := by
    simp only [Nat.cast_zero, add_zero]
    omega
  have hnn : ¬ (0 : Int) ≤ offset + ((0 : Nat) : Int) := by
    simp only [Nat.cast_zero, add_zero]
    omega
  unfold varintDecode varintDecodeLoop
  simp only [if_pos hc, if_neg hnn]
  norm_num
  decide

theorem jsSliceIndex_natCast (len k : Nat) : jsSliceIndex len (k : Int) = min k len := by
  unfold jsSliceIndex
  rw [if_neg (by omega : ¬ (k : Int) < 0)]
  have h : ((k : Int)).toNat = k := by omega
  rw [h]

theorem uslice_nat (a : List Nat) (s e : Nat) (hs : s ≤ a.length) (he : e ≤ a.length) :
    uslice a (s : Int) (e : Int) = (a.take e).drop s := by
  unfold uslice
  rw [jsSliceIndex_natCast, jsSliceIndex_natCast, min_eq_left hs, min_eq_left he]

theorem uslice_extract (p m r : List Nat) :
    uslice (p ++ m ++ r) (p.length : Int) ((p.length : Int) + (m.length : Int)) = m := by
  have hcast : (p.length : Int) + (m.length : Int) = ((p.length + m.length : Nat) : Int) := by
    push_cast
    ring
  rw [hcast, uslice_nat _ _ _ (by simp) (by simp)]
  rw [List.append_assoc]
  rw [List.take_append_eq_append_take]
  rw [List.take_of_length_le (by omega), show p.length + m.length - p.length = m.length by omega]
  rw [List.take_append_eq_append_take, List.take_of_length_le (by omega),
    show m.length - m.length = 0 by omega]
  simp [List.drop_left]

theorem uslice_to_end (a : List Nat) (s : Nat) (hs : s ≤ a.length) :
    uslice a (s : Int) (a.length : Int) = a.drop s := by
  rw [uslice_nat _ _ _ hs le_rfl, List.take_length]

theorem uslice_drop_all (p r : List Nat) :
    uslice (p ++ r) (p.length : Int) ((p ++ r).length : Int) = r := by
  rw [uslice_to_end _ _ (by simp), List.drop_left]

theorem encodeWebAuthnVarsig_eq (a : WebAuthnAssertion) (alg : SignatureAlgorithm) :
    encodeWebAuthnVarsig a alg =
      varintEncode (ALGORITHM_TO_MULTICODEC alg) ++
      (varintEncode a.authenticatorData.length ++
      (a.authenticatorData ++
      (varintEncode a.clientDataJSON.length ++
      (a.clientDataJSON ++ a.signature)))) := by
  simp [encodeWebAuthnVarsig, concat]

theorem varintDecode_at (bytes : List Nat) (off : Int) (o m : Nat) (rest : List Nat)
    (ho : off = (o : Int)) (hdrop : bytes.drop o = varintEncode m ++ rest) (hm : m < 2 ^ 31) :
    varintDecode bytes off = .ok ((m : Int), (varintEncode m).length) := by
  subst ho
  exact varintDecode_encode_lt bytes o m rest hdrop hm

theorem uslice_extract_at (v p m r : List Nat) (o1 o2 : Int) (hv : v = p ++ m ++ r)
    (ho1 : o1 = (p.length : Int)) (ho2 : o2 = o1 + (m.length : Int)) :
    uslice v o1 o2 = m := by
  subst hv ho1 ho2
  exact uslice_extract p m r

theorem uslice_end_at (v p r : List Nat) (o e : Int) (hv : v = p ++ r)
    (ho : o = (p.length : Int)) (he : e = (v.length : Int)) :
    uslice v o e = r := by
  subst hv ho he
  exact uslice_drop_all p r

theorem decode_encode_raw (alg : SignatureAlgorithm) (A C S : List Nat)
    (hA : A.length < 2 ^ 31) (hC : C.length < 2 ^ 31) :
    decodeWebAuthnVarsig (encodeWebAuthnVarsig ⟨A, C, S⟩ alg) =
      if sigLenOk alg S.length then
        .ok ⟨((ALGORITHM_TO_MULTICODEC alg : Nat) : Int), alg, A, C, S⟩
      else if alg = .Ed25519 then .error (.invalidEd25519SignatureLength S.length)
      else .error (.invalidP256SignatureLength S.length) := by
  have htag : ALGORITHM_TO_MULTICODEC alg < 2 ^ 31 := by
    cases alg <;> decide
  have hv := encodeWebAuthnVarsig_eq ⟨A, C, S⟩ alg
  simp only at hv
  rw [hv]
  have hp1 : varintDecode
      (varintEncode (ALGORITHM_TO_MULTICODEC alg) ++
        (varintEncode A.length ++ (A ++ (varintEncode C.length ++ (C ++ S))))) (0 : Int)
      = .ok ((ALGORITHM_TO_MULTICODEC alg : Int),
          (varintEncode (ALGORITHM_TO_MULTICODEC alg)).length) :=
    varintDecode_at _ _ 0 _ _ (by norm_num) (by rw [List.drop_zero]) htag
  have hp2 : varintDecode
      (varintEncode (ALGORITHM_TO_MULTICODEC alg) ++
        (varintEncode A.length ++ (A ++ (varintEncode C.length ++ (C ++ S)))))
      (0 + ((varintEncode (ALGORITHM_TO_MULTICODEC alg)).length : Int))
      = .ok ((A.length : Int), (varintEncode A.length).length) :=
    varintDecode_at _ _ (varintEncode (ALGORITHM_TO_MULTICODEC alg)).length _ _
      (by norm_num) (by rw [List.drop_left]) hA
  have hp3 : varintDecode
      (varintEncode (ALGORITHM_TO_MULTICODEC alg) ++
        (varintEncode A.length ++ (A ++ (varintEncode C.length ++ (C ++ S)))))
      (0 + ((varintEncode (ALGORITHM_TO_MULTICODEC alg)).length : Int)
        + ((varintEncode A.length).length : Int) + (A.length : Int))
      = .ok ((C.length : Int), (varintEncode C.length).length) := by
    apply varintDecode_at _ _
      ((varintEncode (ALGORITHM_TO_MULTICODEC alg)).length
        + (varintEncode A.length).length + A.length) _ (C ++ S)
    · push_cast
      ring
    · rw [show varintEncode (ALGORITHM_TO_MULTICODEC alg) ++
          (varintEncode A.length ++ (A ++ (varintEncode C.length ++ (C ++ S))))
          = (varintEncode (ALGORITHM_TO_MULTICODEC alg) ++ varintEncode A.length ++ A)
            ++ (varintEncode C.length ++ (C ++ S)) by simp [List.append_assoc]]
      rw [show (varintEncode (ALGORITHM_TO_MULTICODEC alg)).length
          + (varintEncode A.length).length + A.length
          = (varintEncode (ALGORITHM_TO_MULTICODEC alg) ++ varintEncode A.length ++ A).length
          by simp; omega]
      rw [List.drop_left]
    · exact hC
  have hs1 : uslice
      (varintEncode (ALGORITHM_TO_MULTICODEC alg) ++
        (varintEncode A.length ++ (A ++ (varintEncode C.length ++ (C ++ S)))))
      (0 + ((varintEncode (ALGORITHM_TO_MULTICODEC alg)).length : Int)
        + ((varintEncode A.length).length : Int))
      (0 + ((varintEncode (ALGORITHM_TO_MULTICODEC alg)).length : Int)
        + ((varintEncode A.length).length : Int) + (A.length : Int)) = A := by
    apply uslice_extract_at _
      (varintEncode (ALGORITHM_TO_MULTICODEC alg) ++ varintEncode A.length) A
      (varintEncode C.length ++ (C ++ S))
    · simp [List.append_assoc]
    · simp
    · rfl
  have hs2 : uslice
      (varintEncode (ALGORITHM_TO_MULTICODEC alg) ++
        (varintEncode A.length ++ (A ++ (varintEncode C.length ++ (C ++ S)))))
      (0 + ((varintEncode (ALGORITHM_TO_MULTICODEC alg)).length : Int)
        + ((varintEncode A.length).length : Int) + (A.length : Int)
        + ((varintEncode C.length).length : Int))
      (0 + ((varintEncode (ALGORITHM_TO_MULTICODEC alg)).length : Int)
        + ((varintEncode A.length).length : Int) + (A.length : Int)
        + ((varintEncode C.length).length : Int) + (C.length : Int)) = C := by
    apply uslice_extract_at _
      (varintEncode (ALGORITHM_TO_MULTICODEC alg) ++ varintEncode A.length ++ A
        ++ varintEncode C.length) C S
    · simp [List.append_assoc]
    · simp
      ring
    · rfl
  have hs3 : uslice
      (varintEncode (ALGORITHM_TO_MULTICODEC alg) ++
        (varintEncode A.length ++ (A ++ (varintEncode C.length ++ (C ++ S)))))
      (0 + ((varintEncode (ALGORITHM_TO_MULTICODEC alg)).length : Int)
        + ((varintEncode A.length).length : Int) + (A.length : Int)
        + ((varintEncode C.length).length : Int) + (C.length : Int))
      (((varintEncode (ALGORITHM_TO_MULTICODEC alg) ++
        (varintEncode A.length ++ (A ++ (varintEncode C.length ++ (C ++ S))))).length : Int))
      = S := by
    apply uslice_end_at _
      (varintEncode (ALGORITHM_TO_MULTICODEC alg) ++ varintEncode A.length ++ A
        ++ varintEncode C.length ++ C) S
    · simp [List.append_assoc]
    · simp
      ring
    · rfl
  have hlen : (varintEncode (ALGORITHM_TO_MULTICODEC alg) ++
      (varintEncode A.length ++ (A ++ (varintEncode C.length ++ (C ++ S))))).length
      = (varintEncode (ALGORITHM_TO_MULTICODEC alg)).length
        + (varintEncode A.length).length + A.length
        + (varintEncode C.length).length + C.length + S.length := by
    simp
    ring
  cases alg with
  | Ed25519 =>
    have hguard : ¬ (((ALGORITHM_TO_MULTICODEC SignatureAlgorithm.Ed25519 : Nat) : Int)
        ≠ (WEBAUTHN_ED25519 : Int)
        ∧ ((ALGORITHM_TO_MULTICODEC SignatureAlgorithm.Ed25519 : Nat) : Int)
        ≠ (WEBAUTHN_P256 : Int)) := by decide
    simp only [decodeWebAuthnVarsig, hp1, hp2, hp3, hs1, hs2, hs3, if_neg hguard,
      if_neg (show ¬ ((varintEncode (ALGORITHM_TO_MULTICODEC SignatureAlgorithm.Ed25519) ++
        (varintEncode A.length ++ (A ++ (varintEncode C.length ++ (C ++ S))))).length : Int)
        < 0 + ((varintEncode (ALGORITHM_TO_MULTICODEC SignatureAlgorithm.Ed25519)).length : Int)
        + ((varintEncode A.length).length : Int) + (A.length : Int) by
          rw [hlen]; push_cast; omega),
      if_neg (show ¬ ((varintEncode (ALGORITHM_TO_MULTICODEC SignatureAlgorithm.Ed25519) ++
        (varintEncode A.length ++ (A ++ (varintEncode C.length ++ (C ++ S))))).length : Int)
        < 0 + ((varintEncode (ALGORITHM_TO_MULTICODEC SignatureAlgorithm.Ed25519)).length : Int)
        + ((varintEncode A.length).length : Int) + (A.length : Int)
        + ((varintEncode C.length).length : Int) + (C.length : Int) by
          rw [hlen]; push_cast; omega),
      if_pos (show ((ALGORITHM_TO_MULTICODEC SignatureAlgorithm.Ed25519 : Nat) : Int)
        = (WEBAUTHN_ED25519 : Int) by decide)]
    simp only [sigLenOk]
    by_cases hsig : S.length = 64
    · rw [if_neg (by omega), if_pos (by simp [hsig])]
    · rw [if_pos (by omega), if_neg (by simp [hsig]), if_pos trivial]
  | P256 =>
    have hguard : ¬ (((ALGORITHM_TO_MULTICODEC SignatureAlgorithm.P256 : Nat) : Int)
        ≠ (WEBAUTHN_ED25519 : Int)
        ∧ ((ALGORITHM_TO_MULTICODEC SignatureAlgorithm.P256 : Nat) : Int)
        ≠ (WEBAUTHN_P256 : Int)) := by decide
    simp only [decodeWebAuthnVarsig, hp1, hp2, hp3, hs1, hs2, hs3, if_neg hguard,
      if_neg (show ¬ ((varintEncode (ALGORITHM_TO_MULTICODEC SignatureAlgorithm.P256) ++
        (varintEncode A.length ++ (A ++ (varintEncode C.length ++ (C ++ S))))).length : Int)
        < 0 + ((varintEncode (ALGORITHM_TO_MULTICODEC SignatureAlgorithm.P256)).length : Int)
        + ((varintEncode A.length).length : Int) + (A.length : Int) by
          rw [hlen]; push_cast; omega),
      if_neg (show ¬ ((varintEncode (ALGORITHM_TO_MULTICODEC SignatureAlgorithm.P256) ++
        (varintEncode A.length ++ (A ++ (varintEncode C.length ++ (C ++ S))))).length : Int)
        < 0 + ((varintEncode (ALGORITHM_TO_MULTICODEC SignatureAlgorithm.P256)).length : Int)
        + ((varintEncode A.length).length : Int) + (A.length : Int)
        + ((varintEncode C.length).length : Int) + (C.length : Int) by
          rw [hlen]; push_cast; omega),
      if_neg (show ¬ ((ALGORITHM_TO_MULTICODEC SignatureAlgorithm.P256 : Nat) : Int)
        = (WEBAUTHN_ED25519 : Int) by decide)]
    simp only [sigLenOk]
    by_cases hsig : 64 ≤ S.length ∧ S.length ≤ 74
    · rw [if_neg (by omega), if_pos (by simp [hsig.1, hsig.2])]
    · rw [if_pos (by omega), if_neg (by simp; omega)]
      simp

theorem uslice_neg_start (a : List Nat) (s : Int) (hs : s < 0) :
    uslice a s (a.length : Int) = a.drop (max ((a.length : Int) + s) 0).toNat := by
  unfold uslice
  rw [jsSliceIndex_natCast, min_self, List.take_length]
  unfold jsSliceIndex
  rw [if_pos hs]

/-! ## C1: varint round-trip -/

/-- C1 (counterexample): the claim "for every unsigned integer n in
[0, 2^32), varintDecode(varintEncode(n), 0) == (n, bytesUsed)" fails at
n = 2^31 = 2147483648: the decoder accumulates with JavaScript's 32-bit
signed `|`, so the decoded value is -2147483648, not 2147483648. -/
theorem c1_counterexample :
    varintDecode (varintEncode 2147483648) 0
      ≠ .ok ((2147483648 : Int), (varintEncode 2147483648).length) := by
  decide

/-- C1 (amended): for every n in [0, 2^31), decoding the encoding of n
returns n together with the number of bytes the encoding occupies; in
particular varintEncode(300) = [0xAC, 0x02] and
varintDecode([0xAC, 0x02], 0) = (300, 2). -/
theorem c1_varint_roundtrip :
    (∀ n : Nat, n < 2 ^ 31 →
      varintDecode (varintEncode n) 0 = .ok ((n : Int), (varintEncode n).length))
    ∧ varintEncode 300 = [0xAC, 0x02]
    ∧ varintDecode [0xAC, 0x02] 0 = .ok (300, 2) := by
  refine ⟨?_, by decide, by decide⟩
  intro n hn
  exact varintDecode_at (varintEncode n) 0 0 n [] (by norm_num) (by simp) hn

/-- Witness for C1 at n = 300. -/
theorem c1_witness :
    (300 : Nat) < 2 ^ 31 ∧
    varintDecode (varintEncode 300) 0 = .ok ((300 : Int), (varintEncode 300).length) :=
  ⟨by norm_num, c1_varint_roundtrip.1 300 (by norm_num)⟩

/-! ## C3: envelope round-trip -/

/-- C3 (amended): for both algorithms and all authData/clientData whose
lengths are below 2^31 (so that their length varints decode within the
32-bit accumulator) and any signature satisfying the length invariant,
decoding the encoding returns exactly the algorithm's tag, the same
authenticatorData, clientDataJSON and signature. -/
theorem c3_roundtrip (alg : SignatureAlgorithm) (A C S : List Nat)
    (hA : A.length < 2 ^ 31) (hC : C.length < 2 ^ 31)
    (hS : sigLenOk alg S.length = true) :
    decodeWebAuthnVarsig (encodeWebAuthnVarsig ⟨A, C, S⟩ alg)
      = .ok ⟨((ALGORITHM_TO_MULTICODEC alg : Nat) : Int), alg, A, C, S⟩ := by
  rw [decode_encode_raw alg A C S hA hC, if_pos hS]

/-- Witness for C3 on a concrete Ed25519 envelope. -/
theorem c3_witness :
    (List.replicate 37 0).length < 2 ^ 31
    ∧ ([1] : List Nat).length < 2 ^ 31
    ∧ sigLenOk .Ed25519 (List.replicate 64 2).length = true
    ∧ decodeWebAuthnVarsig (encodeWebAuthnVarsig
        ⟨List.replicate 37 0, [1], List.replicate 64 2⟩ .Ed25519)
      = .ok ⟨((ALGORITHM_TO_MULTICODEC .Ed25519 : Nat) : Int), .Ed25519,
          List.replicate 37 0, [1], List.replicate 64 2⟩ :=
  ⟨by decide, by decide, by decide,
    c3_roundtrip .Ed25519 (List.replicate 37 0) [1] (List.replicate 64 2)
      (by decide) (by decide) (by decide)⟩

/-- C3 (counterexample): with a 2^31-byte authenticatorData the claim
fails: the authData length varint decodes to -2^31 through the 32-bit
accumulator, the offset arithmetic goes negative, and the decoder ends
up rejecting its own encoder's output with an invalid-signature-length
error instead of round-tripping. -/
theorem c3_counterexample :
    decodeWebAuthnVarsig (encodeWebAuthnVarsig
        ⟨List.replicate (2 ^ 31) 0, [123], List.replicate 64 1⟩ .Ed25519)
      = .error (.invalidEd25519SignatureLength (2 ^ 31 - 8)) := by
  have key : ∀ (A S : List Nat), A.length = 2 ^ 31 → S.length = 64 →
      decodeWebAuthnVarsig (encodeWebAuthnVarsig ⟨A, [123], S⟩ .Ed25519)
        = .error (.invalidEd25519SignatureLength (2 ^ 31 - 8)) := by
    intro A S hAlen hSlen
    have hv := encodeWebAuthnVarsig_eq ⟨A, [123], S⟩ .Ed25519
    simp only [hAlen, List.length_cons, List.length_nil, zero_add] at hv
    rw [hv]
    have hp1 : varintDecode
        (varintEncode (ALGORITHM_TO_MULTICODEC SignatureAlgorithm.Ed25519) ++
          (varintEncode (2 ^ 31) ++ (A ++ (varintEncode 1 ++ ([123] ++ S))))) (0 : Int)
        = .ok ((11985 : Int), (2 : Nat)) := by
      have h := varintDecode_at _ (0 : Int) 0 (ALGORITHM_TO_MULTICODEC SignatureAlgorithm.Ed25519)
        (varintEncode (2 ^ 31) ++ (A ++ (varintEncode 1 ++ ([123] ++ S))))
        (by norm_num) (by rw [List.drop_zero]) (by decide)
      rw [show (varintEncode (ALGORITHM_TO_MULTICODEC SignatureAlgorithm.Ed25519)).length = 2
        by decide] at h
      rw [show ((ALGORITHM_TO_MULTICODEC SignatureAlgorithm.Ed25519 : Nat) : Int) = (11985 : Int)
        by decide] at h
      exact h
    have hp2 : varintDecode
        (varintEncode (ALGORITHM_TO_MULTICODEC SignatureAlgorithm.Ed25519) ++
          (varintEncode (2 ^ 31) ++ (A ++ (varintEncode 1 ++ ([123] ++ S)))))
        (0 + ((2 : Nat) : Int))
        = .ok ((-2147483648 : Int), (5 : Nat)) := by
      have h := varintDecode_encode
        (varintEncode (ALGORITHM_TO_MULTICODEC SignatureAlgorithm.Ed25519) ++
          (varintEncode (2 ^ 31) ++ (A ++ (varintEncode 1 ++ ([123] ++ S)))))
        2 (2 ^ 31)
        (A ++ (varintEncode 1 ++ ([123] ++ S)))
        (by rw [List.drop_left' (by decide :
            (varintEncode (ALGORITHM_TO_MULTICODEC SignatureAlgorithm.Ed25519)).length = 2)])
        (by norm_num)
      rw [show (varintEncode (2 ^ 31 : Nat)).length = 5 by decide] at h
      rw [show toInt32 (((2 ^ 31 : Nat) : Nat) : Int) = (-2147483648 : Int) by decide] at h
      rw [show (0 + ((2 : Nat) : Int)) = ((2 : Nat) : Int) by norm_num]
      exact h
    have hp3 : varintDecode
        (varintEncode (ALGORITHM_TO_MULTICODEC SignatureAlgorithm.Ed25519) ++
          (varintEncode (2 ^ 31) ++ (A ++ (varintEncode 1 ++ ([123] ++ S)))))
        (0 + ((2 : Nat) : Int) + ((5 : Nat) : Int) + -2147483648)
        = .ok ((0 : Int), (1 : Nat)) :=
      varintDecode_neg _ _ (by norm_num)
    have hlenAll : (varintEncode (ALGORITHM_TO_MULTICODEC SignatureAlgorithm.Ed25519) ++
        (varintEncode (2 ^ 31) ++ (A ++ (varintEncode 1 ++ ([123] ++ S))))).length
        = 2 ^ 31 + 73 := by
      simp only [List.length_append, List.length_cons, List.length_nil, hAlen, hSlen]
      rw [show (varintEncode (ALGORITHM_TO_MULTICODEC SignatureAlgorithm.Ed25519)).length = 2
        by decide]
      rw [show (varintEncode (2 ^ 31 : Nat)).length = 5 by decide]
      rw [show (varintEncode (1 : Nat)).length = 1 by decide]
      norm_num
    simp only [decodeWebAuthnVarsig, hp1, hp2, hp3]
    rw [uslice_neg_start _
      (0 + ((2 : Nat) : Int) + ((5 : Nat) : Int) + -2147483648 + ((1 : Nat) : Int) + 0)
      (by norm_num)]
    rw [hlenAll]
    simp only [if_neg (show ¬ ((11985 : Int) ≠ (WEBAUTHN_ED25519 : Int)
        ∧ (11985 : Int) ≠ (WEBAUTHN_P256 : Int)) by decide),
      if_neg (show ¬ (((2 ^ 31 + 73 : Nat) : Int)
        < 0 + ((2 : Nat) : Int) + ((5 : Nat) : Int) + -2147483648) by decide),
      if_neg (show ¬ (((2 ^ 31 + 73 : Nat) : Int)
        < 0 + ((2 : Nat) : Int) + ((5 : Nat) : Int) + -2147483648 + ((1 : Nat) : Int) + 0)
        by decide),
      if_pos (show (11985 : Int) = (WEBAUTHN_ED25519 : Int) by decide),
      show (max (((2 ^ 31 + 73 : Nat) : Int)
        + (0 + ((2 : Nat) : Int) + ((5 : Nat) : Int) + -2147483648 + ((1 : Nat) : Int) + 0))
        0).toNat = 81 by decide,
      List.length_drop, hlenAll]
    norm_num
  exact key _ _ (by rw [List.length_replicate]) (by rw [List.length_replicate])

theorem decode_sigLen_inv (v : List Nat) (d : DecodedVarsig)
    (h : decodeWebAuthnVarsig v = .ok d) :
    (d.algorithm = .Ed25519 → d.signature.length = 64)
    ∧ (d.algorithm = .P256 → 64 ≤ d.signature.length ∧ d.signature.length ≤ 74) := by
  unfold decodeWebAuthnVarsig at h
  repeat' split at h
  any_goals simp at h
  repeat' split at h
  any_goals simp at h
  all_goals subst h
  all_goals refine ⟨fun halg => ?_, fun halg => ?_⟩
  all_goals dsimp only at halg ⊢
  all_goals first
    | exact absurd halg (by decide)
    | omega

/-! ## C4: signature length enforcement -/

/-- C4: the decoder enforces the signature-length invariant of the
decoded envelope: an Ed25519 decode succeeds only when the trailing
signature is exactly 64 bytes (a 63- or 65-byte remainder fails with the
invalid-Ed25519-signature-length error), and a P-256 decode only when it
is between 64 and 74 bytes inclusive (a 200-byte remainder fails with
the invalid-P-256-signature-length error). -/
theorem c4_signature_length :
    (∀ (v : List Nat) (d : DecodedVarsig), decodeWebAuthnVarsig v = .ok d →
      (d.algorithm = .Ed25519 → d.signature.length = 64)
      ∧ (d.algorithm = .P256 → 64 ≤ d.signature.length ∧ d.signature.length ≤ 74))
    ∧ (∀ A C S : List Nat, A.length < 2 ^ 31 → C.length < 2 ^ 31 →
      (S.length = 63 ∨ S.length = 65) →
      decodeWebAuthnVarsig (encodeWebAuthnVarsig ⟨A, C, S⟩ .Ed25519)
        = .error (.invalidEd25519SignatureLength S.length))
    ∧ (∀ A C S : List Nat, A.length < 2 ^ 31 → C.length < 2 ^ 31 → S.length = 200 →
      decodeWebAuthnVarsig (encodeWebAuthnVarsig ⟨A, C, S⟩ .P256)
        = .error (.invalidP256SignatureLength S.length)) := by
  refine ⟨decode_sigLen_inv, fun A C S hA hC hS => ?_, fun A C S hA hC hS => ?_⟩
  · rw [decode_encode_raw .Ed25519 A C S hA hC,
      if_neg (by simp [sigLenOk]; omega), if_pos rfl]
  · rw [decode_encode_raw .P256 A C S hA hC,
      if_neg (by simp [sigLenOk]; omega), if_neg (by decide)]

/-- Witness for C4 on concrete envelopes. -/
theorem c4_witness :
    (decodeWebAuthnVarsig (encodeWebAuthnVarsig ⟨[1], [2], List.replicate 64 3⟩ .Ed25519)
      = .ok ⟨11985, .Ed25519, [1], [2], List.replicate 64 3⟩)
    ∧ ((⟨11985, .Ed25519, [1], [2], List.replicate 64 3⟩ : DecodedVarsig).signature.length = 64)
    ∧ decodeWebAuthnVarsig (encodeWebAuthnVarsig ⟨[1], [2], List.replicate 63 3⟩ .Ed25519)
      = .error (.invalidEd25519SignatureLength (List.replicate 63 3).length)
    ∧ decodeWebAuthnVarsig (encodeWebAuthnVarsig ⟨[1], [2], List.replicate 200 3⟩ .P256)
      = .error (.invalidP256SignatureLength (List.replicate 200 3).length) :=
  ⟨by decide,
   (c4_signature_length.1 (encodeWebAuthnVarsig ⟨[1], [2], List.replicate 64 3⟩ .Ed25519)
      ⟨11985, .Ed25519, [1], [2], List.replicate 64 3⟩ (by decide)).1 rfl,
   c4_signature_length.2.1 [1] [2] (List.replicate 63 3) (by decide) (by decide) (by decide),
   c4_signature_length.2.2 [1] [2] (List.replicate 200 3) (by decide) (by decide) (by decide)⟩

/-! ## C2: truncation robustness -/

/-- C2 (counterexample): the claim "decoding any strict prefix of a
valid envelope fails with a truncation error" is false: for a valid
P-256 envelope with a 65-byte signature, dropping the last byte yields a
strict prefix that still decodes successfully, with the signature
silently truncated to 64 bytes. -/
theorem c2_counterexample :
    decodeWebAuthnVarsig (encodeWebAuthnVarsig
        ⟨List.replicate 37 0, [1], List.replicate 65 2⟩ .P256)
      = .ok ⟨8790, .P256, List.replicate 37 0, [1], List.replicate 65 2⟩
    ∧ (encodeWebAuthnVarsig ⟨List.replicate 37 0, [1], List.replicate 65 2⟩ .P256).length - 1
        < (encodeWebAuthnVarsig ⟨List.replicate 37 0, [1], List.replicate 65 2⟩ .P256).length
    ∧ decodeWebAuthnVarsig ((encodeWebAuthnVarsig
          ⟨List.replicate 37 0, [1], List.replicate 65 2⟩ .P256).take
        ((encodeWebAuthnVarsig ⟨List.replicate 37 0, [1], List.replicate 65 2⟩ .P256).length - 1))
      = .ok ⟨8790, .P256, List.replicate 37 0, [1], List.replicate 64 2⟩ :=
  ⟨by decide, by decide, by decide⟩

theorem algTag_guard (alg : SignatureAlgorithm) :
    ¬ (((ALGORITHM_TO_MULTICODEC alg : Nat) : Int) ≠ (WEBAUTHN_ED25519 : Int)
      ∧ ((ALGORITHM_TO_MULTICODEC alg : Nat) : Int) ≠ (WEBAUTHN_P256 : Int)) := by
  cases alg <;> decide

theorem decode_err_tag (bytes : List Nat) (e : DecodeError)
    (h : varintDecode bytes 0 = .error e) :
    decodeWebAuthnVarsig bytes = .error e := by
  simp only [decodeWebAuthnVarsig, h]

theorem decode_err_lenA (bytes : List Nat) (alg : SignatureAlgorithm) (mlen : Nat)
    (e : DecodeError)
    (h1 : varintDecode bytes 0 = .ok (((ALGORITHM_TO_MULTICODEC alg : Nat) : Int), mlen))
    (h2 : varintDecode bytes (0 + (mlen : Int)) = .error e) :
    decodeWebAuthnVarsig bytes = .error e := by
  simp only [decodeWebAuthnVarsig, h1, if_neg (algTag_guard alg), h2]

theorem decode_err_authLen (bytes : List Nat) (alg : SignatureAlgorithm) (mlen : Nat)
    (aval : Int) (alen : Nat)
    (h1 : varintDecode bytes 0 = .ok (((ALGORITHM_TO_MULTICODEC alg : Nat) : Int), mlen))
    (h2 : varintDecode bytes (0 + (mlen : Int)) = .ok (aval, alen))
    (hg : (bytes.length : Int) < 0 + (mlen : Int) + (alen : Int) + aval) :
    decodeWebAuthnVarsig bytes = .error .invalidAuthDataLength := by
  simp only [decodeWebAuthnVarsig, h1, if_neg (algTag_guard alg), h2, if_pos hg]

theorem decode_err_lenC (bytes : List Nat) (alg : SignatureAlgorithm) (mlen : Nat)
    (aval : Int) (alen : Nat) (e : DecodeError)
    (h1 : varintDecode bytes 0 = .ok (((ALGORITHM_TO_MULTICODEC alg : Nat) : Int), mlen))
    (h2 : varintDecode bytes (0 + (mlen : Int)) = .ok (aval, alen))
    (hg : ¬ ((bytes.length : Int) < 0 + (mlen : Int) + (alen : Int) + aval))
    (h3 : varintDecode bytes (0 + (mlen : Int) + (alen : Int) + aval) = .error e) :
    decodeWebAuthnVarsig bytes = .error e := by
  simp only [decodeWebAuthnVarsig, h1, if_neg (algTag_guard alg), h2, if_neg hg, h3]

theorem decode_err_clientLen (bytes : List Nat) (alg : SignatureAlgorithm) (mlen : Nat)
    (aval : Int) (alen : Nat) (cval : Int) (clen : Nat)
    (h1 : varintDecode bytes 0 = .ok (((ALGORITHM_TO_MULTICODEC alg : Nat) : Int), mlen))
    (h2 : varintDecode bytes (0 + (mlen : Int)) = .ok (aval, alen))
    (hg : ¬ ((bytes.length : Int) < 0 + (mlen : Int) + (alen : Int) + aval))
    (h3 : varintDecode bytes (0 + (mlen : Int) + (alen : Int) + aval) = .ok (cval, clen))
    (hg2 : (bytes.length : Int) < 0 + (mlen : Int) + (alen : Int) + aval + (clen : Int) + cval) :
    decodeWebAuthnVarsig bytes = .error .invalidClientDataJSONLength := by
  simp only [decodeWebAuthnVarsig, h1, if_neg (algTag_guard alg), h2, if_neg hg, h3,
    if_pos hg2]

theorem take_append_exact (p r : List Nat) (j : Nat) :
    (p ++ r).take (p.length + j) = p ++ r.take j := by
  rw [List.take_append_eq_append_take, List.take_of_length_le (by omega),
    show p.length + j - p.length = j by omega]

theorem varintDecode_truncated_at (bytes : List Nat) (off : Int) (o m j : Nat)
    (ho : off = (o : Int)) (hm : m < 2 ^ 32) (hj : j < (varintEncode m).length)
    (hdrop : bytes.drop o = (varintEncode m).take j) :
    varintDecode bytes off = .error .varintIncomplete := by
  subst ho
  exact varintDecode_truncatedVarint bytes o m j hm hj hdrop

/-- C2 (amended): for every envelope produced by the encoder from
inputs satisfying the invariants (and header pieces below 2^31), a
strict prefix of length k fails to decode when it retains fewer than 64
signature bytes; when it retains at least 64 signature bytes — which is
possible only for a P-256 envelope with a signature longer than 64
bytes — it decodes successfully with the signature silently truncated. -/
theorem c2_truncation (alg : SignatureAlgorithm) (A C S : List Nat)
    (hA : A.length < 2 ^ 31) (hC : C.length < 2 ^ 31)
    (hS : sigLenOk alg S.length = true) (k : Nat)
    (hk : k < (encodeWebAuthnVarsig ⟨A, C, S⟩ alg).length) :
    (k < (encodeWebAuthnVarsig ⟨A, C, S⟩ alg).length - S.length + 64 →
      ∃ e, decodeWebAuthnVarsig ((encodeWebAuthnVarsig ⟨A, C, S⟩ alg).take k) = .error e)
    ∧ ((encodeWebAuthnVarsig ⟨A, C, S⟩ alg).length - S.length + 64 ≤ k →
      alg = .P256 ∧
      decodeWebAuthnVarsig ((encodeWebAuthnVarsig ⟨A, C, S⟩ alg).take k)
        = .ok ⟨((WEBAUTHN_P256 : Nat) : Int), .P256, A, C,
            S.take (k - ((encodeWebAuthnVarsig ⟨A, C, S⟩ alg).length - S.length))⟩) := by
  have hv := encodeWebAuthnVarsig_eq ⟨A, C, S⟩ alg
  simp only at hv
  have htag31 : ALGORITHM_TO_MULTICODEC alg < 2 ^ 31 := by cases alg <;> decide
  have hlenv : (encodeWebAuthnVarsig ⟨A, C, S⟩ alg).length
      = (varintEncode (ALGORITHM_TO_MULTICODEC alg)).length
        + (varintEncode A.length).length + A.length
        + (varintEncode C.length).length + C.length + S.length := by
    rw [hv]
    simp
    omega
  have hsP : alg = .P256 → 64 ≤ S.length ∧ S.length ≤ 74 := by
    intro he
    subst he
    simp [sigLenOk] at hS
    omega
  have hsE : alg = .Ed25519 → S.length = 64 := by
    intro he
    subst he
    simpa [sigLenOk] using hS
  constructor
  · intro hk64
    by_cases h1 : k < (varintEncode (ALGORITHM_TO_MULTICODEC alg)).length
    · refine ⟨.varintIncomplete, decode_err_tag _ _ ?_⟩
      apply varintDecode_truncated_at _ 0 0 (ALGORITHM_TO_MULTICODEC alg) k rfl
        (by omega) h1
      rw [List.drop_zero, hv, List.take_append_of_le_length (by omega)]
    · by_cases h2 : k < (varintEncode (ALGORITHM_TO_MULTICODEC alg)).length
          + (varintEncode A.length).length
      · have hp : (encodeWebAuthnVarsig ⟨A, C, S⟩ alg).take k
            = varintEncode (ALGORITHM_TO_MULTICODEC alg)
              ++ (varintEncode A.length).take
                (k - (varintEncode (ALGORITHM_TO_MULTICODEC alg)).length) := by
          rw [hv]
          conv_lhs => rw [show k = (varintEncode (ALGORITHM_TO_MULTICODEC alg)).length
            + (k - (varintEncode (ALGORITHM_TO_MULTICODEC alg)).length) by omega]
          rw [take_append_exact]
          congr 1
          rw [List.take_append_of_le_length (by omega)]
        refine ⟨.varintIncomplete, ?_⟩
        rw [hp]
        apply decode_err_lenA _ alg _ _
          (varintDecode_at _ _ 0 _ _ rfl (by rw [List.drop_zero]) htag31)
        apply varintDecode_truncated_at _ _
          (varintEncode (ALGORITHM_TO_MULTICODEC alg)).length A.length
          (k - (varintEncode (ALGORITHM_TO_MULTICODEC alg)).length)
          (by norm_num) (by omega) (by omega)
        rw [List.drop_left]
      · by_cases h3 : k < (varintEncode (ALGORITHM_TO_MULTICODEC alg)).length
            + (varintEncode A.length).length + A.length
        · have hp : (encodeWebAuthnVarsig ⟨A, C, S⟩ alg).take k
              = varintEncode (ALGORITHM_TO_MULTICODEC alg)
                ++ (varintEncode A.length
                ++ A.take (k - (varintEncode (ALGORITHM_TO_MULTICODEC alg)).length
                  - (varintEncode A.length).length)) := by
            rw [hv]
            conv_lhs => rw [show k = (varintEncode (ALGORITHM_TO_MULTICODEC alg)).length
              + ((varintEncode A.length).length
                + (k - (varintEncode (ALGORITHM_TO_MULTICODEC alg)).length
                  - (varintEncode A.length).length)) by omega]
            rw [take_append_exact, take_append_exact]
            congr 2
            rw [List.take_append_of_le_length (by omega)]
          refine ⟨.invalidAuthDataLength, ?_⟩
          rw [hp]
          have hplen : (varintEncode (ALGORITHM_TO_MULTICODEC alg)
              ++ (varintEncode A.length
              ++ A.take (k - (varintEncode (ALGORITHM_TO_MULTICODEC alg)).length
                - (varintEncode A.length).length))).length = k := by
            simp [List.length_take]
            omega
          apply decode_err_authLen _ alg _ _ _
            (varintDecode_at _ _ 0 _ _ rfl (by rw [List.drop_zero]) htag31)
            (varintDecode_at _ _ (varintEncode (ALGORITHM_TO_MULTICODEC alg)).length _ _
              (by norm_num) (by rw [List.drop_left]) hA)
          rw [hplen]
          push_cast
          omega
        · by_cases h4 : k < (varintEncode (ALGORITHM_TO_MULTICODEC alg)).length
              + (varintEncode A.length).length + A.length + (varintEncode C.length).length
          · have hp : (encodeWebAuthnVarsig ⟨A, C, S⟩ alg).take k
                = varintEncode (ALGORITHM_TO_MULTICODEC alg)
                  ++ (varintEncode A.length
                  ++ (A
                  ++ (varintEncode C.length).take
                    (k - (varintEncode (ALGORITHM_TO_MULTICODEC alg)).length
                      - (varintEncode A.length).length - A.length))) := by
              rw [hv]
              conv_lhs => rw [show k = (varintEncode (ALGORITHM_TO_MULTICODEC alg)).length
                + ((varintEncode A.length).length + (A.length
                  + (k - (varintEncode (ALGORITHM_TO_MULTICODEC alg)).length
                    - (varintEncode A.length).length - A.length))) by omega]
              rw [take_append_exact, take_append_exact, take_append_exact]
              congr 3
              rw [List.take_append_of_le_length (by omega)]
            refine ⟨.varintIncomplete, ?_⟩
            rw [hp]
            have hplen : (varintEncode (ALGORITHM_TO_MULTICODEC alg)
                ++ (varintEncode A.length
                ++ (A
                ++ (varintEncode C.length).take
                  (k - (varintEncode (ALGORITHM_TO_MULTICODEC alg)).length
                    - (varintEncode A.length).length - A.length)))).length = k := by
              simp [List.length_take]
              omega
            apply decode_err_lenC _ alg _ _ _ _
              (varintDecode_at _ _ 0 _ _ rfl (by rw [List.drop_zero]) htag31)
              (varintDecode_at _ _ (varintEncode (ALGORITHM_TO_MULTICODEC alg)).length _ _
                (by norm_num) (by rw [List.drop_left]) hA)
              (by rw [hplen]; push_cast; omega)
            apply varintDecode_truncated_at _ _
              ((varintEncode (ALGORITHM_TO_MULTICODEC alg)).length
                + (varintEncode A.length).length + A.length) C.length
              (k - (varintEncode (ALGORITHM_TO_MULTICODEC alg)).length
                - (varintEncode A.length).length - A.length)
              (by push_cast; ring) (by omega) (by omega)
            rw [show varintEncode (ALGORITHM_TO_MULTICODEC alg)
                ++ (varintEncode A.length
                ++ (A
                ++ (varintEncode C.length).take
                  (k - (varintEncode (ALGORITHM_TO_MULTICODEC alg)).length
                    - (varintEncode A.length).length - A.length)))
                = (varintEncode (ALGORITHM_TO_MULTICODEC alg)
                  ++ varintEncode A.length ++ A)
                  ++ (varintEncode C.length).take
                    (k - (varintEncode (ALGORITHM_TO_MULTICODEC alg)).length
                      - (varintEncode A.length).length - A.length)
                by simp [List.append_assoc]]
            rw [List.drop_left' (by simp only [List.length_append])]
          · by_cases h5 : k < (varintEncode (ALGORITHM_TO_MULTICODEC alg)).length
                + (varintEncode A.length).length + A.length
                + (varintEncode C.length).length + C.length
            · have hp : (encodeWebAuthnVarsig ⟨A, C, S⟩ alg).take k
                  = varintEncode (ALGORITHM_TO_MULTICODEC alg)
                    ++ (varintEncode A.length
                    ++ (A
                    ++ (varintEncode C.length
                    ++ C.take (k - (varintEncode (ALGORITHM_TO_MULTICODEC alg)).length
                      - (varintEncode A.length).length - A.length
                      - (varintEncode C.length).length)))) := by
                rw [hv]
                conv_lhs => rw [show k = (varintEncode (ALGORITHM_TO_MULTICODEC alg)).length
                  + ((varintEncode A.length).length + (A.length
                    + ((varintEncode C.length).length
                      + (k - (varintEncode (ALGORITHM_TO_MULTICODEC alg)).length
                        - (varintEncode A.length).length - A.length
                        - (varintEncode C.length).length)))) by omega]
                rw [take_append_exact, take_append_exact, take_append_exact,
                  take_append_exact]
                congr 4
                rw [List.take_append_of_le_length (by omega)]
              refine ⟨.invalidClientDataJSONLength, ?_⟩
              rw [hp]
              have hplen : (varintEncode (ALGORITHM_TO_MULTICODEC alg)
                  ++ (varintEncode A.length
                  ++ (A
                  ++ (varintEncode C.length
                  ++ C.take (k - (varintEncode (ALGORITHM_TO_MULTICODEC alg)).length
                    - (varintEncode A.length).length - A.length
                    - (varintEncode C.length).length))))).length = k := by
                simp [List.length_take]
                omega
              apply decode_err_clientLen _ alg _ _ _ _ _
                (varintDecode_at _ _ 0 _ _ rfl (by rw [List.drop_zero]) htag31)
                (varintDecode_at _ _ (varintEncode (ALGORITHM_TO_MULTICODEC alg)).length _ _
                  (by norm_num) (by rw [List.drop_left]) hA)
                (by rw [hplen]; push_cast; omega)
                (varintDecode_at _ _
                  ((varintEncode (ALGORITHM_TO_MULTICODEC alg)).length
                    + (varintEncode A.length).length + A.length) _ _
                  (by push_cast; ring)
                  (by
                    rw [show varintEncode (ALGORITHM_TO_MULTICODEC alg)
                      ++ (varintEncode A.length
                      ++ (A
                      ++ (varintEncode C.length
                      ++ C.take (k - (varintEncode (ALGORITHM_TO_MULTICODEC alg)).length
                        - (varintEncode A.length).length - A.length
                        - (varintEncode C.length).length))))
                      = (varintEncode (ALGORITHM_TO_MULTICODEC alg)
                        ++ varintEncode A.length ++ A)
                        ++ (varintEncode C.length
                          ++ C.take (k - (varintEncode (ALGORITHM_TO_MULTICODEC alg)).length
                            - (varintEncode A.length).length - A.length
                            - (varintEncode C.length).length))
                      by simp [List.append_assoc]]
                    rw [List.drop_left' (by simp only [List.length_append])]) hC)
              rw [hplen]
              push_cast
              omega
            · -- header ≤ k < header + 64 : truncated signature shorter than 64
              have hp : (encodeWebAuthnVarsig ⟨A, C, S⟩ alg).take k
                  = encodeWebAuthnVarsig ⟨A, C,
                      S.take (k - (varintEncode (ALGORITHM_TO_MULTICODEC alg)).length
                        - (varintEncode A.length).length - A.length
                        - (varintEncode C.length).length - C.length)⟩ alg := by
                rw [hv, encodeWebAuthnVarsig_eq]
                simp only
                conv_lhs => rw [show k = (varintEncode (ALGORITHM_TO_MULTICODEC alg)).length
                  + ((varintEncode A.length).length + (A.length
                    + ((varintEncode C.length).length + (C.length
                      + (k - (varintEncode (ALGORITHM_TO_MULTICODEC alg)).length
                        - (varintEncode A.length).length - A.length
                        - (varintEncode C.length).length - C.length))))) by omega]
                rw [take_append_exact, take_append_exact, take_append_exact,
                  take_append_exact, take_append_exact]
              rw [hp, decode_encode_raw alg A C _ hA hC]
              have hlent : (S.take (k - (varintEncode (ALGORITHM_TO_MULTICODEC alg)).length
                  - (varintEncode A.length).length - A.length
                  - (varintEncode C.length).length - C.length)).length
                  = k - (varintEncode (ALGORITHM_TO_MULTICODEC alg)).length
                    - (varintEncode A.length).length - A.length
                    - (varintEncode C.length).length - C.length := by
                rw [List.length_take]
                omega
              cases alg with
              | Ed25519 =>
                rw [if_neg (by simp [sigLenOk, hlent]; omega), if_pos rfl]
                exact ⟨_, rfl⟩
              | P256 =>
                rw [if_neg (by simp [sigLenOk, hlent]; omega), if_neg (by decide)]
                exact ⟨_, rfl⟩
  · intro hbig
    cases alg with
    | Ed25519 =>
      exfalso
      have := hsE rfl
      omega
    | P256 =>
      refine ⟨rfl, ?_⟩
      have hs74 := hsP rfl
      have hp : (encodeWebAuthnVarsig ⟨A, C, S⟩ .P256).take k
          = encodeWebAuthnVarsig ⟨A, C,
              S.take (k - ((encodeWebAuthnVarsig ⟨A, C, S⟩ .P256).length - S.length))⟩
            .P256 := by
        rw [hv, encodeWebAuthnVarsig_eq]
        simp only
        conv_lhs => rw [show k
          = (varintEncode (ALGORITHM_TO_MULTICODEC SignatureAlgorithm.P256)).length
          + ((varintEncode A.length).length + (A.length
            + ((varintEncode C.length).length + (C.length
              + (k - ((encodeWebAuthnVarsig ⟨A, C, S⟩ .P256).length - S.length)))))) by
                rw [hlenv]; omega]
        rw [take_append_exact, take_append_exact, take_append_exact,
          take_append_exact, take_append_exact, ← hv]
      rw [hp, decode_encode_raw .P256 A C _ hA hC]
      have hlent : (S.take (k - ((encodeWebAuthnVarsig ⟨A, C, S⟩ .P256).length
          - S.length))).length
          = k - ((encodeWebAuthnVarsig ⟨A, C, S⟩ .P256).length - S.length) := by
        rw [List.length_take]
        rw [hlenv] at hk ⊢
        omega
      rw [if_pos (by
        simp only [sigLenOk, hlent]
        rw [hlenv] at hbig hk ⊢
        simp
        omega)]
      rfl

/-- Witness for C2: a 10-byte prefix of a concrete Ed25519 envelope
fails to decode. -/
theorem c2_witness :
    ([5] : List Nat).length < 2 ^ 31
    ∧ sigLenOk .Ed25519 (List.replicate 64 2).length = true
    ∧ 10 < (encodeWebAuthnVarsig ⟨[5], [6], List.replicate 64 2⟩ .Ed25519).length
    ∧ 10 < (encodeWebAuthnVarsig ⟨[5], [6], List.replicate 64 2⟩ .Ed25519).length
        - (List.replicate 64 2).length + 64
    ∧ ∃ e, decodeWebAuthnVarsig
        ((encodeWebAuthnVarsig ⟨[5], [6], List.replicate 64 2⟩ .Ed25519).take 10)
        = .error e :=
  ⟨by decide, by decide, by decide, by decide,
   (c2_truncation .Ed25519 [5] [6] (List.replicate 64 2) (by decide) (by decide)
     (by decide) 10 (by decide)).1 (by decide)⟩

/-! ## Claims C8, C6, C5 -/

/-- C8: for every algorithm tag and all byte strings authData, clientData,
signature, with no precondition, `encodeWebAuthnVarsig` emits exactly the
concatenation `varintEncode(tag) ++ varintEncode(len authData) ++ authData
++ varintEncode(len clientData) ++ clientData ++ signature`, the signature
placed last and not length-prefixed. -/
theorem c8_encode_layout (alg : SignatureAlgorithm) (A C S : List Nat) :
    encodeWebAuthnVarsig ⟨A, C, S⟩ alg =
      varintEncode (ALGORITHM_TO_MULTICODEC alg) ++ varintEncode A.length ++ A ++
        varintEncode C.length ++ C ++ S := by
  simp [encodeWebAuthnVarsig, concat]

/-- C6: whenever the parsed clientData declares an origin different from the
expected origin (exact string comparison), `verifyWebAuthnAssertion` returns
an invalid result, and when the ceremony type is correct that result carries
exactly the origin-mismatch error; the cryptographic signature is never
consulted (the model contains no signature check at all). -/
theorem c6_origin_mismatch (jsonParse : List Nat → Except String ClientDataJSON)
    (decoded : DecodedVarsig) (options : VerificationOptions) (cd : ClientDataJSON)
    (hp : jsonParse decoded.clientDataJSON = .ok cd)
    (ho : cd.origin ≠ options.expectedOrigin) :
    (verifyWebAuthnAssertion jsonParse decoded options).valid = false ∧
    (cd.type = "webauthn.get" →
      verifyWebAuthnAssertion jsonParse decoded options =
        ⟨false, some ("Origin mismatch: expected " ++ options.expectedOrigin ++
          ", got " ++ cd.origin), none, none⟩) := by
  have h1 : parseClientDataJSON jsonParse decoded.clientDataJSON = .ok cd := by
    unfold parseClientDataJSON
    rw [hp]
  constructor
  · by_cases ht : cd.type = "webauthn.get"
    · unfold verifyWebAuthnAssertion verifyWebAuthnAssertionTry
      rw [h1]
      simp [ht, ho]
    · unfold verifyWebAuthnAssertion verifyWebAuthnAssertionTry
      rw [h1]
      simp [ht]
  · intro ht
    unfold verifyWebAuthnAssertion verifyWebAuthnAssertionTry
    rw [h1]
    simp [ht, ho]

/-- C6 witness: clientData origin `https://evil.com` against expected origin
`https://example.com` yields exactly the origin-mismatch failure. -/
theorem c6_witness :
    verifyWebAuthnAssertion
        (fun _ => .ok ⟨"webauthn.get", "AQID", "https://evil.com", none⟩)
        ⟨0x2ed1, .Ed25519, [], [], []⟩
        ⟨"https://example.com", [1, 2, 3], none⟩ =
      ⟨false, some "Origin mismatch: expected https://example.com, got https://evil.com",
        none, none⟩ := by
  have h := c6_origin_mismatch
    (fun _ => .ok ⟨"webauthn.get", "AQID", "https://evil.com", none⟩)
    ⟨0x2ed1, .Ed25519, [], [], []⟩
    ⟨"https://example.com", [1, 2, 3], none⟩
    ⟨"webauthn.get", "AQID", "https://evil.com", none⟩
    rfl (by decide)
  exact (h.2 rfl).trans (by decide)

/-- C5 (amended: the authenticatorData must be at least 37 bytes, since the
length check precedes the flags check): for a decoded envelope whose flags
byte at offset 32 is `0x01` and which passes the type, origin, and challenge
checks, verification succeeds when `requireUserVerification` is `false` and
fails with the user-verification error when it is `true` or omitted. -/
theorem c5_uv_gate (jsonParse : List Nat → Except String ClientDataJSON)
    (decoded : DecodedVarsig) (options : VerificationOptions) (cd : ClientDataJSON)
    (hp : jsonParse decoded.clientDataJSON = .ok cd)
    (ht : cd.type = "webauthn.get")
    (ho : cd.origin = options.expectedOrigin)
    (hc : base64urlToBytes cd.challenge = .ok options.expectedChallenge)
    (hlen : 37 ≤ decoded.authenticatorData.length)
    (hflags : decoded.authenticatorData.getD 32 0 = 0x01) :
    (options.requireUserVerification = some false →
      verifyWebAuthnAssertion jsonParse decoded options =
        ⟨true, none, some cd, some ⟨true, false, false, false⟩⟩) ∧
    (options.requireUserVerification ≠ some false →
      verifyWebAuthnAssertion jsonParse decoded options =
        ⟨false, some "User verification (UV) flag not set", none, none⟩) := by
  have h1 : parseClientDataJSON jsonParse decoded.clientDataJSON = .ok cd := by
    unfold parseClientDataJSON
    rw [hp]
  have hlen2 : ¬ decoded.authenticatorData.length < 37 := by omega
  have hb0 : Nat.testBit 1 0 = true := by decide
  have hb2 : Nat.testBit 1 2 = false := by decide
  have hb3 : Nat.testBit 1 3 = false := by decide
  have hb4 : Nat.testBit 1 4 = false := by decide
  have hflags2 : (decoded.authenticatorData[32]?).getD 0 = 1 := by
    simpa using hflags
  constructor <;> intro hr <;>
    · unfold verifyWebAuthnAssertion verifyWebAuthnAssertionTry
      rw [h1]
      simp [ht, ho, hc, hflags, hflags2, hlen2, bytesEqual, hr, hb0, hb2, hb3, hb4]

/-- C5 counterexample to the unamended claim: a decoded envelope with a
33-byte authenticatorData whose byte at offset 32 is `0x01`, passing the
type, origin, and challenge checks, with `requireUserVerification = false`,
is still rejected (with the authenticatorData-length error), because the
`length >= 37` check runs before the flags are read. -/
theorem c5_counterexample :
    verifyWebAuthnAssertion
        (fun _ => .ok ⟨"webauthn.get", "AQID", "https://example.com", none⟩)
        ⟨0x2ed1, .Ed25519, List.replicate 32 0 ++ [1], [], List.replicate 64 0⟩
        ⟨"https://example.com", [1, 2, 3], some false⟩ =
      ⟨false, some "Invalid authenticatorData length: 33, expected >= 37",
        none, none⟩ ∧
    (List.replicate 32 0 ++ [1]).getD 32 0 = 0x01 := by
  decide

/-- C5 witness: a 37-byte authenticatorData with flags byte `0x01` passes
verification when `requireUserVerification = false`. -/
theorem c5_witness :
    verifyWebAuthnAssertion
        (fun _ => .ok ⟨"webauthn.get", "AQID", "https://example.com", none⟩)
        ⟨0x2ed1, .Ed25519, List.replicate 32 0 ++ 1 :: List.replicate 4 0, [],
          List.replicate 64 0⟩
        ⟨"https://example.com", [1, 2, 3], some false⟩ =
      ⟨true, none, some ⟨"webauthn.get", "AQID", "https://example.com", none⟩,
        some ⟨true, false, false, false⟩⟩ := by
  exact (c5_uv_gate _ _ _ _ rfl rfl rfl (by decide) (by decide) (by decide)).1 rfl

/-! ## Claim C7 -/

/-- Exhaustive case analysis of the `try` body: it either throws, and then
only because `parseClientDataJSON` or the challenge `base64urlToBytes`
threw, or it returns a result that is an invalid one carrying an error
message, or the valid one carrying the parsed clientData and the flags. -/
theorem verify_cases (j : List Nat → Except String ClientDataJSON) (d : DecodedVarsig)
    (o : VerificationOptions) :
    (∃ e, verifyWebAuthnAssertionTry j d o = .error e ∧
      ((∃ e2, j d.clientDataJSON = .error e2) ∨
       (∃ cd e2, j d.clientDataJSON = .ok cd ∧ base64urlToBytes cd.challenge = .error e2))) ∨
    (∃ r, verifyWebAuthnAssertionTry j d o = .ok r ∧
      ((r.valid = false ∧ r.error.isSome = true) ∨
       (r.valid = true ∧ r.error = none ∧ r.flags.isSome = true ∧
         ∃ cd, j d.clientDataJSON = .ok cd ∧ r.clientData = some cd))) := by
  unfold verifyWebAuthnAssertionTry parseClientDataJSON
  rcases hj : j d.clientDataJSON with e0 | cd
  · exact .inl ⟨_, rfl, .inl ⟨e0, rfl⟩⟩
  · dsimp only
    by_cases ht : cd.type = "webauthn.get"
    · rw [if_neg (by simp [ht])]
      by_cases ho2 : cd.origin = o.expectedOrigin
      · rw [if_neg (by simp [ho2])]
        rcases hb : base64urlToBytes cd.challenge with e1 | chb
        · exact .inl ⟨e1, rfl, .inr ⟨cd, e1, rfl, hb⟩⟩
        · dsimp only
          by_cases hce : bytesEqual chb o.expectedChallenge = false
          · rw [if_pos hce]
            exact .inr ⟨_, rfl, .inl ⟨rfl, rfl⟩⟩
          · rw [if_neg hce]
            by_cases hl : d.authenticatorData.length < 37
            · rw [if_pos hl]
              exact .inr ⟨_, rfl, .inl ⟨rfl, rfl⟩⟩
            · rw [if_neg hl]
              by_cases hup : Nat.testBit (d.authenticatorData.getD 32 0) 0 = false
              · rw [if_pos hup]
                exact .inr ⟨_, rfl, .inl ⟨rfl, rfl⟩⟩
              · rw [if_neg hup]
                by_cases huv : o.requireUserVerification ≠ some false ∧
                    Nat.testBit (d.authenticatorData.getD 32 0) 2 = false
                · rw [if_pos huv]
                  exact .inr ⟨_, rfl, .inl ⟨rfl, rfl⟩⟩
                · rw [if_neg huv]
                  exact .inr ⟨_, rfl, .inr ⟨rfl, rfl, rfl, cd, rfl, rfl⟩⟩
      · rw [if_pos ho2]
        exact .inr ⟨_, rfl, .inl ⟨rfl, rfl⟩⟩
    · rw [if_pos (by simp [ht])]
      exact .inr ⟨_, rfl, .inl ⟨rfl, rfl⟩⟩

/-- C7: `verifyWebAuthnAssertion` never throws: a throw of the `try` body
becomes the tagged result `Verification failed: ...`, and the body throws
only for malformed input (unparseable clientDataJSON or an undecodable
challenge string); every business-logic failure is the tagged result
`valid = false` with an error message, and success returns `valid = true`
with no error, the parsed clientData, and the extracted flags. -/
theorem c7_error_handling (jsonParse : List Nat → Except String ClientDataJSON)
    (decoded : DecodedVarsig) (options : VerificationOptions) :
    (∀ e, verifyWebAuthnAssertionTry jsonParse decoded options = .error e →
      verifyWebAuthnAssertion jsonParse decoded options =
        ⟨false, some ("Verification failed: " ++ e), none, none⟩) ∧
    (∀ e, verifyWebAuthnAssertionTry jsonParse decoded options = .error e →
      (∃ e2, jsonParse decoded.clientDataJSON = .error e2) ∨
      (∃ cd e2, jsonParse decoded.clientDataJSON = .ok cd ∧
        base64urlToBytes cd.challenge = .error e2)) ∧
    ((verifyWebAuthnAssertion jsonParse decoded options).valid = false →
      ((verifyWebAuthnAssertion jsonParse decoded options).error).isSome = true) ∧
    ((verifyWebAuthnAssertion jsonParse decoded options).valid = true →
      (verifyWebAuthnAssertion jsonParse decoded options).error = none ∧
      (∃ cd, jsonParse decoded.clientDataJSON = .ok cd ∧
        (verifyWebAuthnAssertion jsonParse decoded options).clientData = some cd) ∧
      ((verifyWebAuthnAssertion jsonParse decoded options).flags).isSome = true) := by
  refine ⟨?_, ?_, ?_, ?_⟩
  · intro e he
    unfold verifyWebAuthnAssertion
    rw [he]
  · intro e he
    rcases verify_cases jsonParse decoded options with ⟨e3, _, hsrc⟩ | ⟨r, hr, _⟩
    · exact hsrc
    · rw [hr] at he
      cases he
  · intro hv
    rcases verify_cases jsonParse decoded options with ⟨e3, he3, _⟩ | ⟨r, hr, hshape⟩
    · unfold verifyWebAuthnAssertion
      rw [he3]
      rfl
    · unfold verifyWebAuthnAssertion at hv ⊢
      rw [hr] at hv ⊢
      have hv2 : r.valid = false := hv
      rcases hshape with ⟨_, herr⟩ | ⟨hvt, _⟩
      · exact herr
      · rw [hv2] at hvt
        cases hvt
  · intro hv
    rcases verify_cases jsonParse decoded options with ⟨e3, he3, _⟩ | ⟨r, hr, hshape⟩
    · unfold verifyWebAuthnAssertion at hv
      rw [he3] at hv
      simp at hv
    · unfold verifyWebAuthnAssertion at hv ⊢
      rw [hr] at hv ⊢
      have hv2 : r.valid = true := hv
      rcases hshape with ⟨hvf, _⟩ | ⟨_, herr, hfl, cd, hcd, hcdata⟩
      · rw [hv2] at hvf
        cases hvf
      · exact ⟨herr, ⟨cd, hcd, hcdata⟩, hfl⟩

/-- C7 witness: a jsonParse that throws `boom` yields the tagged
`Verification failed` result and is recognised as a malformed-input throw;
a well-formed assertion (flags byte `0x05`) yields a result with no
error. -/
theorem c7_witness :
    verifyWebAuthnAssertion (fun _ : List Nat => (.error "boom" : Except String ClientDataJSON))
        ⟨0x2ed1, .Ed25519, [], [], []⟩ ⟨"https://example.com", [1, 2, 3], none⟩ =
      ⟨false, some ("Verification failed: " ++ "Failed to parse clientDataJSON: boom"),
        none, none⟩ ∧
    ((∃ e2, (Except.error "boom" : Except String ClientDataJSON) = .error e2) ∨
      (∃ cd e2, (Except.error "boom" : Except String ClientDataJSON) = .ok cd ∧
        base64urlToBytes cd.challenge = .error e2)) ∧
    ((verifyWebAuthnAssertion
        (fun _ : List Nat => (.error "boom" : Except String ClientDataJSON))
        ⟨0x2ed1, .Ed25519, [], [], []⟩
        ⟨"https://example.com", [1, 2, 3], none⟩).error).isSome = true ∧
    (verifyWebAuthnAssertion
        (fun _ : List Nat =>
          (.ok ⟨"webauthn.get", "AQID", "https://example.com", none⟩ :
            Except String ClientDataJSON))
        ⟨0x2ed1, .Ed25519, List.replicate 32 0 ++ 5 :: List.replicate 4 0, [],
          List.replicate 64 0⟩
        ⟨"https://example.com", [1, 2, 3], none⟩).error = none := by
  refine ⟨?_, ?_, ?_, ?_⟩
  · exact (c7_error_handling _ _ _).1 _ (by decide)
  · exact (c7_error_handling
      (fun _ : List Nat => (.error "boom" : Except String ClientDataJSON))
      ⟨0x2ed1, .Ed25519, [], [], []⟩ ⟨"https://example.com", [1, 2, 3], none⟩).2.1
      "Failed to parse clientDataJSON: boom" (by decide)
  · exact (c7_error_handling _ _ _).2.2.1 (by decide)
  · exact ((c7_error_handling _ _ _).2.2.2 (by decide)).1

/-! ## Claim C10: base64url round trip -/

theorem mem_of_getLast : ∀ (l : List Char) (c : Char), l.getLast? = some c → c ∈ l
  | [], _, h => by simp [List.getLast?] at h
  | [a], c, h => by
      simp [List.getLast?] at h
      simp [h]
  | a :: b :: t, c, h => by
      rw [List.getLast?_cons_cons] at h
      exact List.mem_cons_of_mem a (mem_of_getLast (b :: t) c h)

/-- The `=`-stripping step of forgiving-base64 removes exactly the padding
when the rest of the input is padding-free. -/
theorem strip_eq (l : List Char) (p : Nat) (hp : p ≤ 2) (hl : ∀ c ∈ l, c ≠ '=') :
    (if (l ++ List.replicate p '=').getLast? == some '=' then
      if ((l ++ List.replicate p '=').dropLast).getLast? == some '=' then
        ((l ++ List.replicate p '=').dropLast).dropLast
      else (l ++ List.replicate p '=').dropLast
    else (l ++ List.replicate p '=')) = l := by
  interval_cases p
  · simp only [List.replicate, List.append_nil]
    rcases hlast : l.getLast? with _ | c
    · simp [hlast]
    · have hc : c ≠ '=' := hl c (mem_of_getLast l c hlast)
      simp [hlast, hc]
  · rw [List.replicate_one]
    rw [if_pos (by simp [List.getLast?_concat])]
    rw [List.dropLast_concat]
    rcases hlast : l.getLast? with _ | c
    · simp [hlast]
    · have hc : c ≠ '=' := hl c (mem_of_getLast l c hlast)
      simp [hlast, hc]
  · rw [show List.replicate 2 '=' = ['=', '='] from rfl]
    rw [show l ++ ['=', '='] = (l ++ ['=']) ++ ['='] by simp]
    rw [if_pos (by simp [List.getLast?_concat])]
    rw [List.dropLast_concat]
    rw [if_pos (by simp [List.getLast?_concat])]
    rw [List.dropLast_concat]

/-- `btoa` splits into the sextet characters followed by the padding. -/
theorem btoaBytes_eq : ∀ l : List Nat,
    btoaBytes l = (bytesToSextets l).map (fun v => base64Chars.getD v 'A') ++
      List.replicate ((3 - l.length % 3) % 3) '='
  | [] => rfl
  | [a] => rfl
  | [a, b] => rfl
  | a :: b :: c2 :: rest => by
      have ih := btoaBytes_eq rest
      have h3 : (3 - (rest.length + 1 + 1 + 1) % 3) % 3 = (3 - rest.length % 3) % 3 := by
        omega
      simp only [btoaBytes, bytesToSextets, List.map_cons, List.length_cons, h3,
        List.cons_append, ih]

/-- Sextets produced from genuine bytes are sextets. -/
theorem bytesToSextets_lt : ∀ l : List Nat, (∀ x ∈ l, x < 256) →
    ∀ v ∈ bytesToSextets l, v < 64
  | [], _ => by simp [bytesToSextets]
  | [a], h => by
      have ha := h a (by simp)
      intro v hv
      simp [bytesToSextets] at hv
      rcases hv with rfl | rfl <;> omega
  | [a, b], h => by
      have ha := h a (by simp)
      have hb := h b (by simp)
      intro v hv
      simp [bytesToSextets] at hv
      rcases hv with rfl | rfl | rfl <;> omega
  | a :: b :: c2 :: rest, h => by
      have ha := h a (by simp)
      have hb := h b (by simp)
      have hc := h c2 (by simp)
      have ih := bytesToSextets_lt rest (fun x hx => h x (by simp [hx]))
      intro v hv
      simp only [bytesToSextets, List.mem_cons] at hv
      rcases hv with rfl | rfl | rfl | rfl | hv
      · omega
      · omega
      · omega
      · omega
      · exact ih v hv

/-- Reassembling the sextets of a byte list yields the byte list back. -/
theorem sextetsToBytes_bytesToSextets : ∀ l : List Nat, (∀ x ∈ l, x < 256) →
    sextetsToBytes (bytesToSextets l) = l
  | [], _ => rfl
  | [a], h => by
      have ha := h a (by simp)
      simp only [bytesToSextets, sextetsToBytes, List.cons.injEq]
      refine ⟨by omega, trivial⟩
  | [a, b], h => by
      have ha := h a (by simp)
      have hb := h b (by simp)
      simp only [bytesToSextets, sextetsToBytes, List.cons.injEq]
      refine ⟨by omega, by omega, trivial⟩
  | a :: b :: c2 :: rest, h => by
      have ha := h a (by simp)
      have hb := h b (by simp)
      have hc := h c2 (by simp)
      have ih := sextetsToBytes_bytesToSextets rest (fun x hx => h x (by simp [hx]))
      simp only [bytesToSextets, sextetsToBytes, List.cons.injEq, ih]
      refine ⟨by omega, by omega, by omega, trivial⟩

/-- The number of sextets of a byte list. -/
theorem bytesToSextets_length : ∀ l : List Nat,
    (bytesToSextets l).length =
      4 * (l.length / 3) + l.length % 3 + (if l.length % 3 = 0 then 0 else 1)
  | [] => rfl
  | [a] => by simp [bytesToSextets]
  | [a, b] => by simp [bytesToSextets]
  | a :: b :: c2 :: rest => by
      have ih := bytesToSextets_length rest
      have hd : (rest.length + 1 + 1 + 1) / 3 = rest.length / 3 + 1 := by omega
      have hm : (rest.length + 1 + 1 + 1) % 3 = rest.length % 3 := by omega
      simp only [bytesToSextets, List.length_cons, ih, hd, hm]
      by_cases h0 : rest.length % 3 = 0 <;> simp [h0] <;> omega

/-- Ground facts about the base64 alphabet and the url replacements,
uniformly over all 64 sextet values. -/
theorem alphabet_facts : ∀ v : Nat, v < 64 →
    (base64CharValue (base64Chars.getD v 'A') = some v ∧
     base64Chars.getD v 'A' ≠ '=' ∧
     isB64Whitespace (base64Chars.getD v 'A') = false ∧
     (if urlOfSextet v = '-' then '+' else if urlOfSextet v = '_' then '/'
       else urlOfSextet v) = base64Chars.getD v 'A' ∧
     urlOfSextet v ≠ '+' ∧ urlOfSextet v ≠ '/' ∧ urlOfSextet v ≠ '=') := by decide

/-- Looking every alphabet character back up succeeds and returns the
sextet values. -/
theorem sextetValues_alphabet : ∀ vs : List Nat, (∀ v ∈ vs, v < 64) →
    sextetValues (vs.map (fun v => base64Chars.getD v 'A')) = some vs
  | [], _ => rfl
  | v :: t, h => by
      have hv := h v (by simp)
      have ih := sextetValues_alphabet t (fun x hx => h x (by simp [hx]))
      simp only [List.map_cons, sextetValues, (alphabet_facts v hv).1, ih]

/-- `atobChars` on alphabet characters plus padding returns the
reassembled bytes. -/
theorem atobChars_clean (vs : List Nat) (p : Nat) (hp : p ≤ 2)
    (hv : ∀ v ∈ vs, v < 64) (hmod : (vs.length + p) % 4 = 0) :
    atobChars (vs.map (fun v => base64Chars.getD v 'A') ++ List.replicate p '=') =
      .ok (sextetsToBytes vs) := by
  have hfil : ((vs.map (fun v => base64Chars.getD v 'A') ++ List.replicate p '=').filter
      (fun c => !(isB64Whitespace c))) =
      vs.map (fun v => base64Chars.getD v 'A') ++ List.replicate p '=' := by
    rw [List.filter_eq_self]
    intro c hc
    rcases List.mem_append.mp hc with hc | hc
    · rcases List.mem_map.mp hc with ⟨v, hv2, rfl⟩
      simp only [Bool.not_eq_true']
      exact (alphabet_facts v (hv v hv2)).2.2.1
    · rw [List.eq_of_mem_replicate hc]
      rfl
  have hne : ∀ c ∈ vs.map (fun v => base64Chars.getD v 'A'), c ≠ '=' := by
    intro c hc
    rcases List.mem_map.mp hc with ⟨v, hv2, rfl⟩
    exact (alphabet_facts v (hv v hv2)).2.1
  have hlen : ((vs.map (fun v => base64Chars.getD v 'A') ++
      List.replicate p '=').length % 4 == 0) = true := by
    simp [List.length_append, List.length_map, List.length_replicate, hmod]
  have hlen1 : ((vs.map (fun v => base64Chars.getD v 'A')).length % 4 == 1) = false := by
    simp only [List.length_map, beq_eq_false_iff_ne, ne_eq]
    omega
  unfold atobChars
  rw [hfil]
  dsimp only
  rw [hlen]
  rw [if_pos rfl]
  rw [strip_eq (vs.map (fun v => base64Chars.getD v 'A')) p hp hne]
  rw [hlen1]
  rw [if_neg Bool.false_ne_true]
  rw [sextetValues_alphabet vs hv]

/-- The characters of `bytesToBase64url` are exactly the url renderings of
the sextets: the padding is filtered away and nothing else is. -/
theorem bytesToBase64url_data (b : List Nat) (hb : ∀ x ∈ b, x < 256) :
    (bytesToBase64url b).toList = (bytesToSextets b).map urlOfSextet := by
  have hsl := bytesToSextets_lt b hb
  unfold bytesToBase64url
  rw [show (String.mk (((btoaBytes b).map
      (fun c => if c = '+' then '-' else if c = '/' then '_' else c)).filter
        (fun c => !(c == '=')))).toList =
      ((btoaBytes b).map
        (fun c => if c = '+' then '-' else if c = '/' then '_' else c)).filter
          (fun c => !(c == '=')) from rfl]
  rw [btoaBytes_eq, List.map_append, List.map_map, List.map_replicate]
  rw [show (if ('=' : Char) = '+' then '-' else if ('=' : Char) = '/' then '_' else '=')
    = '=' from rfl]
  rw [List.filter_append]
  have h1 : ((bytesToSextets b).map
      ((fun c => if c = '+' then '-' else if c = '/' then '_' else c) ∘
        (fun v => base64Chars.getD v 'A'))).filter (fun c => !(c == '=')) =
      (bytesToSextets b).map urlOfSextet := by
    have hmap : (bytesToSextets b).map
        ((fun c => if c = '+' then '-' else if c = '/' then '_' else c) ∘
          (fun v => base64Chars.getD v 'A')) = (bytesToSextets b).map urlOfSextet :=
      List.map_congr_left (fun v _ => rfl)
    rw [hmap, List.filter_eq_self]
    intro c hc
    rcases List.mem_map.mp hc with ⟨v, hv2, rfl⟩
    simp [(alphabet_facts v (hsl v hv2)).2.2.2.2.2.2]
  have h2 : (List.replicate ((3 - b.length % 3) % 3) '=').filter
      (fun c => !(c == '=')) = [] := by
    induction (3 - b.length % 3) % 3 with
    | zero => rfl
    | succ n ih => simp [List.replicate_succ, ih]
  rw [h1, h2, List.append_nil]

/-- C10: base64url text wrapping round-trips on byte strings, and the
produced text never contains `+`, `/`, or `=`. -/
theorem c10_base64url_roundtrip (b : List Nat) (hb : ∀ x ∈ b, x < 256) :
    base64urlToBytes (bytesToBase64url b) = .ok b ∧
    ∀ ch ∈ (bytesToBase64url b).toList, ch ≠ '+' ∧ ch ≠ '/' ∧ ch ≠ '=' := by
  have hsl := bytesToSextets_lt b hb
  have hchars := bytesToBase64url_data b hb
  have hs4 : (bytesToSextets b).length % 4 ≠ 1 := by
    have hlen := bytesToSextets_length b
    by_cases h0 : b.length % 3 = 0
    · rw [if_pos h0] at hlen
      omega
    · rw [if_neg h0] at hlen
      omega
  constructor
  · unfold base64urlToBytes
    dsimp only
    rw [hchars, List.map_map]
    have hback : (bytesToSextets b).map
        ((fun c => if c = '-' then '+' else if c = '_' then '/' else c) ∘ urlOfSextet) =
        (bytesToSextets b).map (fun v => base64Chars.getD v 'A') :=
      List.map_congr_left (fun v hv2 => (alphabet_facts v (hsl v hv2)).2.2.2.1)
    rw [hback, List.length_map]
    rw [atobChars_clean (bytesToSextets b) ((4 - (bytesToSextets b).length % 4) % 4)
      (by omega) hsl (by omega)]
    rw [sextetsToBytes_bytesToSextets b hb]
  · intro ch hch
    rw [hchars] at hch
    rcases List.mem_map.mp hch with ⟨v, hv2, rfl⟩
    have hf := alphabet_facts v (hsl v hv2)
    exact ⟨hf.2.2.2.2.1, hf.2.2.2.2.2.1, hf.2.2.2.2.2.2⟩

/-- C10 witness: the two-byte string `[1, 2]` (a padded group) round-trips. -/
theorem c10_witness : base64urlToBytes (bytesToBase64url [1, 2]) = .ok [1, 2] := by
  exact (c10_base64url_roundtrip [1, 2] (by decide)).1

/-! ## Claim C9: base58btc and did:key round trip -/

theorem natDigitsRev_zero (b : Nat) : ∀ f, natDigitsRev b f 0 = [] := by
  intro f
  cases f <;> rfl

theorem natDigitsRev_congr (b : Nat) (hb : 2 ≤ b) : ∀ f1 f2 n, n ≤ f1 → n ≤ f2 →
    natDigitsRev b f1 n = natDigitsRev b f2 n := by
  intro f1
  induction f1 with
  | zero =>
    intro f2 n h1 h2
    have : n = 0 := by omega
    subst this
    rw [natDigitsRev_zero, natDigitsRev_zero]
  | succ f ih =>
    intro f2 n h1 h2
    cases n with
    | zero => rw [natDigitsRev_zero, natDigitsRev_zero]
    | succ m =>
      cases f2 with
      | zero => omega
      | succ f2p =>
        have hdiv : (m + 1) / b < m + 1 := Nat.div_lt_self (Nat.succ_pos m) (by omega)
        simp only [natDigitsRev]
        congr 1
        exact ih f2p ((m + 1) / b) (by omega) (by omega)

theorem ofDigitsBE_append_singleton (b : Nat) (l : List Nat) (d : Nat) :
    ofDigitsBE b (l ++ [d]) = ofDigitsBE b l * b + d := by
  simp [ofDigitsBE, List.foldl_append]

theorem foldl_digits_ge (b : Nat) (hb : 1 ≤ b) :
    ∀ (t : List Nat) (acc : Nat), acc ≤ t.foldl (fun a d => a * b + d) acc := by
  intro t
  induction t with
  | nil => intro acc; exact Nat.le_refl acc
  | cons d t ih =>
    intro acc
    refine le_trans ?_ (ih (acc * b + d))
    have h1 : acc ≤ acc * b := by nlinarith
    omega

theorem ofDigitsBE_pos (b : Nat) (hb : 1 ≤ b) (l : List Nat) (hne : l ≠ [])
    (h0 : l.head? ≠ some 0) : 0 < ofDigitsBE b l := by
  cases l with
  | nil => exact absurd rfl hne
  | cons h t =>
    have hh : h ≠ 0 := by simpa using h0
    have hstep : ofDigitsBE b (h :: t) = t.foldl (fun a d => a * b + d) (0 * b + h) := rfl
    rw [hstep]
    have := foldl_digits_ge b hb t (0 * b + h)
    omega

theorem natDigitsRev_value (b : Nat) (hb : 2 ≤ b) : ∀ fuel n, n ≤ fuel →
    ofDigitsBE b ((natDigitsRev b fuel n).reverse) = n := by
  intro fuel
  induction fuel with
  | zero =>
    intro n h
    have : n = 0 := by omega
    subst this
    rfl
  | succ f ih =>
    intro n h
    cases n with
    | zero => rfl
    | succ m =>
      have hdiv : (m + 1) / b < m + 1 := Nat.div_lt_self (Nat.succ_pos m) (by omega)
      simp only [natDigitsRev, List.reverse_cons]
      rw [ofDigitsBE_append_singleton]
      rw [ih ((m + 1) / b) (by omega)]
      rw [Nat.mul_comm]
      exact Nat.div_add_mod (m + 1) b

theorem natDigitsRev_lt (b : Nat) (hb : 2 ≤ b) : ∀ fuel n d, d ∈ natDigitsRev b fuel n →
    d < b := by
  intro fuel
  induction fuel with
  | zero => intro n d hd; simp [natDigitsRev] at hd
  | succ f ih =>
    intro n d hd
    cases n with
    | zero => rw [natDigitsRev_zero] at hd; simp at hd
    | succ m =>
      simp only [natDigitsRev, List.mem_cons] at hd
      rcases hd with rfl | hd
      · exact Nat.mod_lt _ (by omega)
      · exact ih _ _ hd

theorem natDigitsRev_msb (b : Nat) (hb : 2 ≤ b) : ∀ fuel n, n ≠ 0 → n ≤ fuel →
    natDigitsRev b fuel n ≠ [] ∧ (natDigitsRev b fuel n).getLast? ≠ some 0 := by
  intro fuel
  induction fuel with
  | zero => intro n h0 h1; omega
  | succ f ih =>
    intro n h0 h1
    cases n with
    | zero => omega
    | succ m =>
      by_cases hq : (m + 1) / b = 0
      · have hm : m + 1 < b := by
          by_contra hcon
          push_cast at hcon
          have : 1 ≤ (m + 1) / b := (Nat.one_le_div_iff (by omega)).mpr (by omega)
          omega
        constructor
        · simp [natDigitsRev]
        · simp only [natDigitsRev, hq, natDigitsRev_zero]
          rw [show ((m + 1) % b :: ([] : List Nat)).getLast? = some ((m + 1) % b) from rfl]
          rw [Nat.mod_eq_of_lt hm]
          simp
      · obtain ⟨hne, hlast⟩ := ih ((m + 1) / b) hq
          (by
            have hdiv : (m + 1) / b < m + 1 := Nat.div_lt_self (Nat.succ_pos m) (by omega)
            omega)
        constructor
        · simp [natDigitsRev]
        · simp only [natDigitsRev]
          rcases hrec : natDigitsRev b f ((m + 1) / b) with _ | ⟨y, t⟩
          · exact absurd hrec hne
          · rw [List.getLast?_cons_cons, ← hrec]
            exact hlast

theorem natToBase_ofDigitsBE (b : Nat) (hb : 2 ≤ b) : ∀ l : List Nat,
    (∀ x ∈ l, x < b) → l.head? ≠ some 0 → natToBase b (ofDigitsBE b l) = l := by
  intro l
  induction l using List.reverseRecOn with
  | nil => intro _ _; rfl
  | append_singleton l d ih =>
    intro hd h0
    have hdd : d < b := hd d (by simp)
    by_cases hl : l = []
    · subst hl
      have hdne : d ≠ 0 := by simpa using h0
      rw [show ofDigitsBE b ([] ++ [d]) = d by simp [ofDigitsBE]]
      obtain ⟨m, rfl⟩ : ∃ m, d = m + 1 := ⟨d - 1, by omega⟩
      unfold natToBase
      simp only [natDigitsRev]
      rw [Nat.div_eq_of_lt hdd, natDigitsRev_zero, Nat.mod_eq_of_lt hdd]
      rfl
    · have h0l : l.head? ≠ some 0 := by
        rcases l with _ | ⟨h, t⟩
        · exact absurd rfl hl
        · simpa using h0
      have hdl : ∀ x ∈ l, x < b := fun x hx => hd x (by simp [hx])
      have ihl := ih hdl h0l
      have hpos : 0 < ofDigitsBE b l := ofDigitsBE_pos b (by omega) l hl h0l
      set W := ofDigitsBE b l with hW
      rw [ofDigitsBE_append_singleton]
      have hWb : 1 * b ≤ W * b := Nat.mul_le_mul_right b hpos
      obtain ⟨m, hm⟩ : ∃ m, W * b + d = m + 1 := ⟨W * b + d - 1, by omega⟩
      rw [hm]
      unfold natToBase
      simp only [natDigitsRev]
      have hmod : (m + 1) % b = d := by
        rw [← hm, Nat.mul_comm W b, Nat.mul_add_mod]
        exact Nat.mod_eq_of_lt hdd
      have hdivv : (m + 1) / b = W := by
        rw [← hm, Nat.mul_comm W b, Nat.mul_add_div (by omega), Nat.div_eq_of_lt hdd]
        omega
      have hWm : W ≤ m := by
        have hlt : (m + 1) / b < m + 1 := Nat.div_lt_self (Nat.succ_pos m) (by omega)
        omega
      rw [hmod, hdivv]
      rw [natDigitsRev_congr b hb m W W hWm (Nat.le_refl W)]
      rw [List.reverse_cons]
      rw [show (natDigitsRev b W W).reverse = l from ihl]

/-- Ground facts about the base58 alphabet, uniformly over all 58 digit
values. -/
theorem base58_facts : ∀ d : Nat, d < 58 →
    (base58CharValue (base58Alphabet.getD d '1') = some d ∧
     (d ≠ 0 → base58Alphabet.getD d '1' ≠ '1')) := by decide

theorem base58Values_alphabet : ∀ ds : List Nat, (∀ d ∈ ds, d < 58) →
    base58Values (ds.map (fun d => base58Alphabet.getD d '1')) = some ds
  | [], _ => rfl
  | d :: t, h => by
      have hd := h d (by simp)
      have ih := base58Values_alphabet t (fun x hx => h x (by simp [hx]))
      simp only [List.map_cons, base58Values, (base58_facts d hd).1, ih]

/-- The base58btc multibase round-trips on byte strings with no leading
zero byte. -/
theorem base58btc_roundtrip (bytes : List Nat) (hB : ∀ x ∈ bytes, x < 256)
    (h0 : bytes.head? ≠ some 0) :
    base58btcDecode (base58btcEncode bytes) = some bytes := by
  rcases hbytes : bytes with _ | ⟨b0, bt⟩
  · rfl
  · rw [← hbytes]
    have hne : bytes ≠ [] := by rw [hbytes]; exact List.cons_ne_nil _ _
    have hh : b0 ≠ 0 := by rw [hbytes] at h0; simpa using h0
    have htake : bytes.takeWhile (fun x => x == 0) = [] := by
      rw [hbytes]
      simp [List.takeWhile_cons, hh]
    have hdrop : bytes.dropWhile (fun x => x == 0) = bytes := by
      rw [hbytes]
      simp [List.dropWhile_cons, hh]
    unfold base58btcEncode
    rw [htake, hdrop]
    rw [show List.replicate (([] : List Nat)).length '1' = ([] : List Char) from rfl]
    rw [List.nil_append]
    set N := ofDigitsBE 256 bytes with hN
    have hpos : 0 < N := ofDigitsBE_pos 256 (by omega) bytes hne h0
    have hdig : ∀ d ∈ natToBase 58 N, d < 58 := by
      intro d hd2
      unfold natToBase at hd2
      exact natDigitsRev_lt 58 (by omega) N N d (List.mem_reverse.mp hd2)
    have hmsb := natDigitsRev_msb 58 (by omega) N N (by omega) (Nat.le_refl N)
    rcases hdigits : natToBase 58 N with _ | ⟨d0, dt⟩
    · exfalso
      unfold natToBase at hdigits
      exact hmsb.1 (List.reverse_eq_nil_iff.mp hdigits)
    · have hd0lt : d0 < 58 := hdig d0 (by rw [hdigits]; exact List.mem_cons_self d0 dt)
      have hd0 : d0 ≠ 0 := by
        intro hcon
        have h1 : (natToBase 58 N).head? = some d0 := by rw [hdigits]; rfl
        unfold natToBase at h1
        rw [List.head?_reverse] at h1
        subst hcon
        exact hmsb.2 h1
      have hc0 : base58Alphabet.getD d0 '1' ≠ '1' := (base58_facts d0 hd0lt).2 hd0
      rw [List.map_cons]
      simp only [base58btcDecode]
      rw [show (base58Alphabet.getD d0 '1' :: dt.map (fun d => base58Alphabet.getD d '1')).dropWhile
            (fun c => c == '1') =
          base58Alphabet.getD d0 '1' :: dt.map (fun d => base58Alphabet.getD d '1') by
        rw [List.dropWhile_cons, if_neg (by simpa using hc0)]]
      rw [show (base58Alphabet.getD d0 '1' :: dt.map (fun d => base58Alphabet.getD d '1')).takeWhile
            (fun c => c == '1') = ([] : List Char) by
        rw [List.takeWhile_cons, if_neg (by simpa using hc0)]]
      rw [show base58Alphabet.getD d0 '1' :: dt.map (fun d => base58Alphabet.getD d '1') =
          (d0 :: dt).map (fun d => base58Alphabet.getD d '1') from rfl]
      rw [base58Values_alphabet (d0 :: dt) (by rw [← hdigits]; exact hdig)]
      rw [← hdigits]
      dsimp only
      rw [show ofDigitsBE 58 (natToBase 58 N) = N from
        natDigitsRev_value 58 (by omega) N N (Nat.le_refl N)]
      rw [hN]
      rw [natToBase_ofDigitsBE 256 (by omega) bytes hB h0]
      rfl

theorem isPrefixOf_append (l1 l2 : List Char) : (l1.isPrefixOf (l1 ++ l2)) = true := by
  induction l1 with
  | nil => simp [List.isPrefixOf]
  | cons a t ih => simp [List.isPrefixOf, ih]

/-- C9: the derived identifier is `did:key:` plus the base58btc multibase
(`z` prefix) of `tagBytes ++ publicKey`, with `tagBytes = [0xed, 0x01]`
for Ed25519 and `[0x80, 0x24]` (the varint of the P-256 multicodec
`0x1200`) for P-256; the two tag prefixes are distinct, both multikeys
decode back exactly (so algorithm and raw key are recoverable from the
identifier alone), and extracting the public key from
`createEd25519Did pk` returns `pk` for every 32-byte key. -/
theorem c9_did_format :
    (∀ pk : List Nat, createEd25519Did pk =
        String.mk ("did:key:".toList ++ base58btcEncode (0xed :: 0x01 :: pk))) ∧
    (∀ pk : List Nat, createP256Did pk =
        String.mk ("did:key:".toList ++ base58btcEncode (0x80 :: 0x24 :: pk))) ∧
    varintEncode P256_PUB = [0x80, 0x24] ∧
    ([0xed, 0x01] : List Nat) ≠ [0x80, 0x24] ∧
    (∀ pk : List Nat, (∀ x ∈ pk, x < 256) →
      base58btcDecode (base58btcEncode (0xed :: 0x01 :: pk)) = some (0xed :: 0x01 :: pk) ∧
      base58btcDecode (base58btcEncode (0x80 :: 0x24 :: pk)) = some (0x80 :: 0x24 :: pk)) ∧
    (∀ pk : List Nat, pk.length = 32 → (∀ x ∈ pk, x < 256) →
      extractPublicKeyFromDid (createEd25519Did pk) = .ok pk) := by
  have hbound : ∀ (t1 t2 : Nat), t1 < 256 → t2 < 256 → ∀ pk : List Nat,
      (∀ x ∈ pk, x < 256) → ∀ x ∈ t1 :: t2 :: pk, x < 256 := by
    intro t1 t2 h1 h2 pk hpk x hx
    simp only [List.mem_cons] at hx
    rcases hx with rfl | rfl | hx
    · exact h1
    · exact h2
    · exact hpk x hx
  refine ⟨fun pk => rfl, fun pk => rfl, by decide, by decide, ?_, ?_⟩
  · intro pk hpk
    constructor
    · exact base58btc_roundtrip _ (hbound 0xed 0x01 (by omega) (by omega) pk hpk) (by simp)
    · exact base58btc_roundtrip _ (hbound 0x80 0x24 (by omega) (by omega) pk hpk) (by simp)
  · intro pk hlen hpk
    have hrt : base58btcDecode (base58btcEncode (0xed :: 0x01 :: pk)) =
        some (0xed :: 0x01 :: pk) :=
      base58btc_roundtrip _ (hbound 0xed 0x01 (by omega) (by omega) pk hpk) (by simp)
    obtain ⟨body, hbody⟩ : ∃ body, base58btcEncode (0xed :: 0x01 :: pk) = 'z' :: body :=
      ⟨_, rfl⟩
    have hlist : (createEd25519Did pk).toList = "did:key:z".toList ++ body := by
      unfold createEd25519Did
      rw [show (String.mk ("did:key:".toList ++ base58btcEncode (0xed :: 0x01 :: pk))).toList
        = "did:key:".toList ++ base58btcEncode (0xed :: 0x01 :: pk) from rfl]
      rw [hbody]
      rw [show "did:key:z".toList = "did:key:".toList ++ ['z'] by decide]
      simp
    unfold extractPublicKeyFromDid
    rw [if_neg (by
      rw [hlist, isPrefixOf_append]
      simp)]
    have hdrop8 : (createEd25519Did pk).toList.drop 8 =
        base58btcEncode (0xed :: 0x01 :: pk) := by
      rw [hlist]
      rw [show "did:key:z".toList ++ body = "did:key:".toList ++ ('z' :: body) by
        rw [show "did:key:z".toList = "did:key:".toList ++ ['z'] by decide]
        simp]
      rw [show (8 : Nat) = ("did:key:".toList).length by decide]
      rw [List.drop_left]
      rw [← hbody]
    rw [hdrop8, hrt]
    rfl

/-- C9 witness: the all-`7` 32-byte key round-trips through
`createEd25519Did` and `extractPublicKeyFromDid`, and a P-256 multikey
decodes back. -/
theorem c9_witness :
    extractPublicKeyFromDid (createEd25519Did (List.replicate 32 7)) =
      .ok (List.replicate 32 7) ∧
    base58btcDecode (base58btcEncode (0x80 :: 0x24 :: [1, 2])) =
      some (0x80 :: 0x24 :: [1, 2]) := by
  constructor
  · exact c9_did_format.2.2.2.2.2 (List.replicate 32 7) (by decide) (by decide)
  · exact (c9_did_format.2.2.2.2.1 [1, 2] (by decide)).2

end UploadWall
